import Mathlib

/-!
Verification of the FBOSS Routing Information Base (RIB) coordinator
(`fboss/agent/rib/RoutingInformationBase.cpp`).

The embedding models the coordinator's state as a sorted association map
from VRF id (RouterID) to a `RouteTable` holding two network-to-route maps
(IPv4 and IPv6), each a sorted association list keyed by an encoding of the
route's network and mask.  Route tables map each network to the per-client
next-hop contributions of that route.  Forwarding information is derived by
resolution and is not part of the stored state (it is recomputed after each
mutation), so structural equality of states ignores forwarding, matching the
serialization contract.

All machine integers are modelled as `Nat`; RouterID, ClientID and
AdminDistance are small integers in the source.  The single-writer queue and
the timer are not modelled: every operation is a pure state transformation,
which is what the serialized writer guarantees.
-/

namespace FbossRib

/-- An IP address tagged with its family, the numeric address value. -/
inductive IpAddr where
  | v4 (addr : Nat)
  | v6 (addr : Nat)
deriving DecidableEq, Repr

/-- `folly::IPAddress::isV4`. -/
def IpAddr.isV4 : IpAddr → Bool
  | .v4 _ => true
  | .v6 _ => false

/-- The numeric value of the address. -/
def IpAddr.val : IpAddr → Nat
  | .v4 a => a
  | .v6 a => a

/-- An `IpPrefix` / `folly::CIDRNetwork`: address plus mask length. -/
structure Cidr where
  ip : IpAddr
  len : Nat
deriving DecidableEq, Repr

/-- Key of a network in its per-family network-to-route map.  The map for a
family is keyed by (address value, mask length), encoded injectively for
mask lengths below 256 (IPv4 masks are at most 32, IPv6 at most 128). -/
def Cidr.key (p : Cidr) : Nat := p.ip.val * 256 + p.len

/-- `RouteForwardAction` plus the NEXTHOPS case. -/
inductive RouteForwardAction where
  | drop
  | toCpu
  | nexthops
deriving DecidableEq, Repr

/-- An unresolved next hop: address and optional explicit interface. -/
structure NextHop where
  addr : IpAddr
  intf : Option Nat := none
deriving DecidableEq, Repr

/-- `RouteNextHopEntry`: a client's contribution to a route. -/
structure RouteNextHopEntry where
  action : RouteForwardAction
  adminDistance : Nat
  nexthops : List NextHop
deriving DecidableEq, Repr

/-- A RIB route: its network and the per-client contributions
(`RouteNextHopsMulti`), keyed by ClientID.  `best_entry` and `forwarding`
are derived data, recomputed from the contributions. -/
structure RibRoute where
  network : Cidr
  entries : List (Nat × RouteNextHopEntry)
deriving DecidableEq, Repr

/-- One per-family network-to-route map (`IPv4NetworkToRouteMap` or
`IPv6NetworkToRouteMap`), as a sorted association list keyed by
`Cidr.key`. -/
abbrev NetworkToRouteMap := List (Nat × RibRoute)

/-- `RoutingInformationBase::RouteTable`: the two per-family maps of one
VRF. -/
structure RouteTable where
  v4NetworkToRoute : NetworkToRouteMap
  v6NetworkToRoute : NetworkToRouteMap
deriving DecidableEq, Repr

/-- The empty route table a freshly created VRF gets. -/
def RouteTable.empty : RouteTable := ⟨[], []⟩

/-- `RouterIDToRouteTable`: the VRF map, keyed by RouterID. -/
abbrev RouterIDToRouteTable := List (Nat × RouteTable)

/-! ### Sorted association lists

The C++ containers behind the VRF map and the network-to-route maps are
ordered maps (`std::map`, radix trees with ordered iteration).  They are
embedded as association lists sorted strictly by key, so that structural
equality of states coincides with map equality. -/

/-- Lookup in an association list (`find`). -/
def alookup {ν : Type} (k : Nat) : List (Nat × ν) → Option ν
  | [] => none
  | (k', v) :: t => if k = k' then some v else alookup k t

/-- Insert-or-replace in a sorted association list. -/
def ainsert {ν : Type} (k : Nat) (v : ν) : List (Nat × ν) → List (Nat × ν)
  | [] => [(k, v)]
  | (k', v') :: t =>
    if k < k' then (k, v) :: (k', v') :: t
    else if k = k' then (k, v) :: t
    else (k', v') :: ainsert k v t

/-- Remove a key from an association list (`erase`). -/
def aerase {ν : Type} (k : Nat) : List (Nat × ν) → List (Nat × ν)
  | [] => []
  | (k', v') :: t => if k = k' then t else (k', v') :: aerase k t

/-- `x` is strictly below the first key (vacuously true of `[]`). -/
def aheadLt {ν : Type} (x : Nat) : List (Nat × ν) → Bool
  | [] => true
  | (k, _) :: _ => decide (x < k)

/-- Keys are strictly increasing. -/
def asorted {ν : Type} : List (Nat × ν) → Bool
  | [] => true
  | (k, _) :: t => aheadLt k t && asorted t

theorem alookup_ainsert_self {ν : Type} (k : Nat) (v : ν) :
    ∀ m : List (Nat × ν), alookup k (ainsert k v m) = some v := by
  intro m
  induction m with
  | nil => simp [ainsert, alookup]
  | cons h t ih =>
    obtain ⟨k', v'⟩ := h
    by_cases hlt : k < k'
    · simp [ainsert, hlt, alookup]
    · by_cases heq : k = k'
      · simp [ainsert, hlt, heq, alookup]
      · simp [ainsert, hlt, heq, alookup, ih]

theorem alookup_ainsert_ne {ν : Type} {k k' : Nat} (hne : k ≠ k') (v : ν) :
    ∀ m : List (Nat × ν), alookup k (ainsert k' v m) = alookup k m := by
  intro m
  induction m with
  | nil => simp [ainsert, alookup, hne]
  | cons h t ih =>
    obtain ⟨a, b⟩ := h
    by_cases hlt : k' < a
    · simp [ainsert, hlt, alookup, hne]
    · by_cases heq : k' = a
      · subst heq
        simp [ainsert, hlt, alookup, hne]
      · by_cases hka : k = a
        · simp [ainsert, hlt, heq, alookup, hka]
        · simp [ainsert, hlt, heq, alookup, hka, ih]

theorem aerase_ainsert_absent {ν : Type} {k : Nat} (v : ν) :
    ∀ {m : List (Nat × ν)}, alookup k m = none →
      aerase k (ainsert k v m) = m := by
  intro m
  induction m with
  | nil => intro _; simp [ainsert, aerase]
  | cons h t ih =>
    obtain ⟨a, b⟩ := h
    intro habs
    rw [alookup] at habs
    by_cases hka : k = a
    · simp [hka] at habs
    · simp only [hka, if_false] at habs
      by_cases hlt : k < a
      · simp [ainsert, hlt, aerase, hka]
      · simp [ainsert, hlt, hka, aerase, ih habs]

theorem alookup_aerase_ne {ν : Type} {k k' : Nat} (hne : k ≠ k') :
    ∀ m : List (Nat × ν), alookup k (aerase k' m) = alookup k m := by
  intro m
  induction m with
  | nil => simp [aerase, alookup]
  | cons h t ih =>
    obtain ⟨a, b⟩ := h
    by_cases hk'a : k' = a
    · subst hk'a
      simp [aerase, alookup, hne]
    · by_cases hka : k = a
      · simp [aerase, hk'a, alookup, hka]
      · simp [aerase, hk'a, alookup, hka, ih]

theorem aheadLt_ainsert {ν : Type} {x k : Nat} (hxk : x < k) (v : ν) :
    ∀ {m : List (Nat × ν)}, aheadLt x m = true →
      aheadLt x (ainsert k v m) = true := by
  intro m
  cases m with
  | nil => intro _; simpa [ainsert, aheadLt]
  | cons h t =>
    obtain ⟨a, b⟩ := h
    intro hhead
    rw [aheadLt, decide_eq_true_eq] at hhead
    by_cases hlt : k < a
    · simpa [ainsert, hlt, aheadLt]
    · by_cases heq : k = a
      · simpa [ainsert, hlt, heq, aheadLt]
      · simpa [ainsert, hlt, heq, aheadLt]

theorem asorted_cons_iff {ν : Type} {a : Nat} {b : ν} {t : List (Nat × ν)} :
    asorted ((a, b) :: t) = true ↔ aheadLt a t = true ∧ asorted t = true := by
  rw [asorted, Bool.and_eq_true]

theorem asorted_ainsert {ν : Type} (k : Nat) (v : ν) :
    ∀ {m : List (Nat × ν)}, asorted m = true →
      asorted (ainsert k v m) = true := by
  intro m
  induction m with
  | nil => intro _; simp [ainsert, asorted, aheadLt]
  | cons h t ih =>
    obtain ⟨a, b⟩ := h
    intro hs
    obtain ⟨hhead, htail⟩ := asorted_cons_iff.mp hs
    by_cases hlt : k < a
    · rw [ainsert]
      simp only [hlt, if_true]
      exact asorted_cons_iff.mpr ⟨by simpa [aheadLt], hs⟩
    · by_cases heq : k = a
      · subst heq
        rw [ainsert]
        simp only [Nat.lt_irrefl, if_false, if_true]
        exact asorted_cons_iff.mpr ⟨hhead, htail⟩
      · rw [ainsert]
        simp only [hlt, if_false, heq, if_false]
        have hak : a < k := by omega
        exact asorted_cons_iff.mpr ⟨aheadLt_ainsert hak v hhead, ih htail⟩

theorem aheadLt_of_lt_head {ν : Type} {x a : Nat} (hxa : x < a) :
    ∀ {t : List (Nat × ν)}, aheadLt a t = true → aheadLt x t = true := by
  intro t
  cases t with
  | nil => intro _; rfl
  | cons h t' =>
    obtain ⟨c, d⟩ := h
    intro hh
    rw [aheadLt, decide_eq_true_eq] at hh
    rw [aheadLt, decide_eq_true_eq]
    omega

theorem alookup_eq_none_of_aheadLt {ν : Type} {k : Nat} :
    ∀ {m : List (Nat × ν)}, aheadLt k m = true → asorted m = true →
      alookup k m = none := by
  intro m
  induction m with
  | nil => intro _ _; rfl
  | cons h t ih =>
    obtain ⟨a, b⟩ := h
    intro hh hs
    rw [aheadLt, decide_eq_true_eq] at hh
    obtain ⟨hhead, htail⟩ := asorted_cons_iff.mp hs
    rw [alookup]
    have hne : k ≠ a := by omega
    simp only [hne, if_false]
    exact ih (aheadLt_of_lt_head hh hhead) htail

theorem ainsert_existing {ν : Type} {k : Nat} {v : ν} :
    ∀ {m : List (Nat × ν)}, asorted m = true → alookup k m = some v →
      ainsert k v m = m := by
  intro m
  induction m with
  | nil => intro _ hl; exact absurd hl (by simp [alookup])
  | cons h t ih =>
    obtain ⟨a, b⟩ := h
    intro hs hl
    obtain ⟨hhead, htail⟩ := asorted_cons_iff.mp hs
    rw [alookup] at hl
    by_cases hka : k = a
    · subst hka
      simp only [if_true] at hl
      rw [ainsert]
      simp only [Nat.lt_irrefl, if_false, if_true]
      cases hl
      rfl
    · simp only [hka, if_false] at hl
      by_cases hlt : k < a
      · have : alookup k t = none :=
          alookup_eq_none_of_aheadLt (aheadLt_of_lt_head hlt hhead) htail
        rw [this] at hl
        cases hl
      · rw [ainsert]
        simp only [hlt, if_false, hka, if_false]
        rw [ih htail hl]

theorem aerase_ainsert_comm {ν : Type} {k k' : Nat} (hne : k ≠ k') (v : ν) :
    ∀ {m : List (Nat × ν)}, asorted m = true →
      aerase k (ainsert k' v m) = ainsert k' v (aerase k m) := by
  intro m
  induction m with
  | nil => intro _; simp [ainsert, aerase, hne]
  | cons h t ih =>
    obtain ⟨a, b⟩ := h
    intro hs
    obtain ⟨hhead, htail⟩ := asorted_cons_iff.mp hs
    by_cases hka : k = a
    · subst hka
      by_cases hlt : k' < k
      · simp only [ainsert, hlt, if_true, aerase, hne, if_false, if_true]
        cases t with
        | nil => simp [ainsert]
        | cons h' t' =>
          obtain ⟨c, d⟩ := h'
          rw [aheadLt, decide_eq_true_eq] at hhead
          have hk'c : k' < c := by omega
          simp [ainsert, hk'c]
      · have h1 : ¬ k' < k := hlt
        have h2 : ¬ k' = k := fun h => hne h.symm
        simp [ainsert, aerase, h1, h2]
    · by_cases hlt : k' < a
      · simp [ainsert, aerase, hlt, hne, hka]
      · by_cases heq : k' = a
        · subst heq
          simp [ainsert, aerase, hne, hka]
        · simp only [ainsert, hlt, if_false, heq, if_false]
          simp only [aerase, hka, if_false]
          simp only [ainsert, hlt, if_false, heq, if_false]
          rw [ih htail]

theorem lt_of_asorted_cons {ν : Type} {a : Nat} {b : ν} :
    ∀ {t : List (Nat × ν)}, asorted ((a, b) :: t) = true →
      ∀ p ∈ t, a < p.1 := by
  intro t
  induction t generalizing a b with
  | nil => intro _ p hp; cases hp
  | cons h t' ih =>
    obtain ⟨c, d⟩ := h
    intro hs p hp
    obtain ⟨hhead, htail⟩ := asorted_cons_iff.mp hs
    rw [aheadLt, decide_eq_true_eq] at hhead
    cases hp with
    | head => exact hhead
    | tail _ hp' =>
      exact Nat.lt_trans hhead (ih htail p hp')

theorem asorted_append_right {ν : Type} :
    ∀ {m l : List (Nat × ν)}, asorted (m ++ l) = true → asorted l = true := by
  intro m
  induction m with
  | nil => intro l h; exact h
  | cons h t ih =>
    obtain ⟨a, b⟩ := h
    intro l hs
    exact ih (asorted_cons_iff.mp hs).2

theorem ainsert_append_of_allLt {ν : Type} {k : Nat} (v : ν) :
    ∀ {m : List (Nat × ν)}, (∀ p ∈ m, p.1 < k) →
      ainsert k v m = m ++ [(k, v)] := by
  intro m
  induction m with
  | nil => intro _; rfl
  | cons h t ih =>
    obtain ⟨a, b⟩ := h
    intro hall
    have hak : a < k := hall (a, b) (List.mem_cons_self _ _)
    have h1 : ¬ k < a := by omega
    have h2 : ¬ k = a := by omega
    rw [ainsert]
    simp only [h1, if_false, h2, if_false, List.cons_append]
    rw [ih (fun p hp => hall p (List.mem_cons_of_mem _ hp))]

/-- Inserting the elements of a key-sorted list, in order, into a map all of
whose keys are below the list's keys, appends the list: this is what a
deserialization loop does when it replays a serialized (hence sorted)
map. -/
theorem foldl_ainsert_append {ν : Type} :
    ∀ (l m : List (Nat × ν)), asorted (m ++ l) = true →
      List.foldl (fun mm p => ainsert p.1 p.2 mm) m l = m ++ l := by
  intro l
  induction l with
  | nil => intro m _; simp
  | cons h t ih =>
    obtain ⟨k, v⟩ := h
    intro m hs
    have hall : ∀ p ∈ m, p.1 < k := by
      intro p hp
      induction m with
      | nil => cases hp
      | cons h' m' ihm =>
        obtain ⟨a, b⟩ := h'
        cases hp with
        | head =>
          exact lt_of_asorted_cons hs (k, v)
            (List.mem_append_right _ (List.mem_cons_self _ _))
        | tail _ hp' =>
          exact ihm (asorted_cons_iff.mp hs).2 hp'
    rw [List.foldl_cons]
    have hins : ainsert k v m = m ++ [(k, v)] := ainsert_append_of_allLt v hall
    rw [hins]
    have hs' : asorted ((m ++ [(k, v)]) ++ t) = true := by
      rw [List.append_assoc]
      exact hs
    rw [ih (m ++ [(k, v)]) hs', List.append_assoc]
    rfl

/-! ### Route-table operations

`RibRouteUpdater`'s route mutation primitives.  Their bodies are not part
of the sources at hand (only `RoutingInformationBase.cpp` is), so they are
modelled from the spec: §4.2 "Route merge" — a client add inserts or
replaces that client's contribution; a client delete removes the client's
contribution and deletes the route when no contributions remain, and
deleting a non-existent (network, client) pair is a no-op (§8). -/

/-- Modelled from the spec: `RibRouteUpdater::addRoute` on a single
network-to-route map — insert or replace the client's contribution,
creating the route if the network is new (§4.2 step 1). -/
def addToTree (p : Cidr) (clientID : Nat) (e : RouteNextHopEntry)
    (m : NetworkToRouteMap) : NetworkToRouteMap :=
  match alookup p.key m with
  | none => ainsert p.key ⟨p, [(clientID, e)]⟩ m
  | some r => ainsert p.key ⟨r.network, ainsert clientID e r.entries⟩ m

/-- Modelled from the spec: `RibRouteUpdater::delRoute` on a single
network-to-route map — remove the client's contribution, deleting the route
when no contributions remain; a miss is a no-op and reports `none` (§4.2,
§8).  Returns the new map and the deleted contribution, if any. -/
def delFromTree (p : Cidr) (clientID : Nat) (m : NetworkToRouteMap) :
    NetworkToRouteMap × Option RouteNextHopEntry :=
  match alookup p.key m with
  | none => (m, none)
  | some r =>
    match alookup clientID r.entries with
    | none => (m, none)
    | some e =>
      let rest := aerase clientID r.entries
      if rest.isEmpty then (aerase p.key m, some e)
      else (ainsert p.key ⟨r.network, rest⟩ m, some e)

/-- Modelled from the spec: `RibRouteUpdater::removeAllRoutesForClient` on
one map — drop the client's contribution from every route, deleting routes
left without contributions; returns the removed (network, contribution)
pairs. -/
def removeClientFromTree (clientID : Nat) :
    NetworkToRouteMap → NetworkToRouteMap × List (Cidr × RouteNextHopEntry)
  | [] => ([], [])
  | (k, r) :: rest =>
    let (m', del) := removeClientFromTree clientID rest
    match alookup clientID r.entries with
    | none => ((k, r) :: m', del)
    | some e =>
      let entries' := aerase clientID r.entries
      if entries'.isEmpty then (m', (r.network, e) :: del)
      else ((k, ⟨r.network, entries'⟩) :: m', (r.network, e) :: del)

/-- Dispatch of a route add on the address family of its network. -/
def RouteTable.addRoute (t : RouteTable) (p : Cidr) (clientID : Nat)
    (e : RouteNextHopEntry) : RouteTable :=
  if p.ip.isV4 then
    { t with v4NetworkToRoute := addToTree p clientID e t.v4NetworkToRoute }
  else
    { t with v6NetworkToRoute := addToTree p clientID e t.v6NetworkToRoute }

/-- Dispatch of a route delete on the address family of its network. -/
def RouteTable.delRoute (t : RouteTable) (p : Cidr) (clientID : Nat) :
    RouteTable × Option RouteNextHopEntry :=
  if p.ip.isV4 then
    let (m', del) := delFromTree p clientID t.v4NetworkToRoute
    ({ t with v4NetworkToRoute := m' }, del)
  else
    let (m', del) := delFromTree p clientID t.v6NetworkToRoute
    ({ t with v6NetworkToRoute := m' }, del)

/-- `removeAllRoutesForClient` over both family maps; the deleted v4 routes
come first, mirroring per-family processing. -/
def RouteTable.removeAllRoutesForClient (clientID : Nat) (t : RouteTable) :
    RouteTable × List (Cidr × RouteNextHopEntry) :=
  let (m4, d4) := removeClientFromTree clientID t.v4NetworkToRoute
  let (m6, d6) := removeClientFromTree clientID t.v6NetworkToRoute
  (⟨m4, m6⟩, d4 ++ d6)

/-- Find the route stored for a network, in the map of its family. -/
def RouteTable.findRoute (t : RouteTable) (p : Cidr) : Option RibRoute :=
  if p.ip.isV4 then alookup p.key t.v4NetworkToRoute
  else alookup p.key t.v6NetworkToRoute

/-- The contribution a client currently has for a network, if any. -/
def RouteTable.clientLookup (t : RouteTable) (p : Cidr) (clientID : Nat) :
    Option RouteNextHopEntry :=
  match t.findRoute p with
  | none => none
  | some r => alookup clientID r.entries

/-! ### The update path

`RoutingInformationBase::update` / `updateImpl`
(`RoutingInformationBase.cpp`).  The FIB update callback is modelled as a
pure predicate on the published per-VRF tables — true for success, false
for a raised `FbossHwUpdateError` (the only failure the source handles).
The published tables are recorded so that the republish-on-rollback
behavior is visible in theorems. -/

/-- A thrift `UnicastRoute` together with the information
`RouteNextHopEntry::from` extracts from it: the destination network, the
desired forwarding action and the next hops. -/
structure UnicastRoute where
  dest : Cidr
  action : RouteForwardAction
  nexthops : List NextHop
deriving DecidableEq, Repr

/-- Modelled from the spec: `RouteNextHopEntry::from(route, adminDistance)`
builds the client contribution from the route data at the client's
configured admin distance. -/
def RouteNextHopEntry.fromRoute (r : UnicastRoute) (adminDistance : Nat) :
    RouteNextHopEntry :=
  ⟨r.action, adminDistance, r.nexthops⟩

/-- Modelled from the spec: `util::toUnicastRoute(prefix, nhopEntry)` turns
a deleted route entry back into route data for the rollback re-add. -/
def toUnicastRoute (p : Cidr) (e : RouteNextHopEntry) : UnicastRoute :=
  ⟨p, e.action, e.nexthops⟩

/-- `RoutingInformationBase::UpdateStatistics` (duration not modelled). -/
structure UpdateStatistics where
  v4RoutesAdded : Nat
  v4RoutesDeleted : Nat
  v6RoutesAdded : Nat
  v6RoutesDeleted : Nat
deriving DecidableEq, Repr

def UpdateStatistics.zero : UpdateStatistics := ⟨0, 0, 0, 0⟩

/-- The `for (const auto& route : toAdd)` loop of `updateImpl`: count the
route by family, then add it. -/
def processAdds (clientID adminDistance : Nat) :
    List UnicastRoute → RouteTable → UpdateStatistics →
      RouteTable × UpdateStatistics
  | [], t, s => (t, s)
  | r :: rest, t, s =>
    let s' :=
      if r.dest.ip.isV4 then { s with v4RoutesAdded := s.v4RoutesAdded + 1 }
      else { s with v6RoutesAdded := s.v6RoutesAdded + 1 }
    processAdds clientID adminDistance rest
      (t.addRoute r.dest clientID (RouteNextHopEntry.fromRoute r adminDistance)) s'

/-- The `for (const auto& prefix : toDelete)` loop of `updateImpl`: count
the delete by family whether or not anything is deleted, delete, and record
the deleted entry if there was one. -/
def processDeletes (clientID : Nat) :
    List Cidr → RouteTable → UpdateStatistics →
      List (Cidr × RouteNextHopEntry) →
      RouteTable × UpdateStatistics × List (Cidr × RouteNextHopEntry)
  | [], t, s, acc => (t, s, acc)
  | p :: rest, t, s, acc =>
    let s' :=
      if p.ip.isV4 then { s with v4RoutesDeleted := s.v4RoutesDeleted + 1 }
      else { s with v6RoutesDeleted := s.v6RoutesDeleted + 1 }
    let (t', deleted) := t.delRoute p clientID
    let acc' := match deleted with
      | some e => acc ++ [(p, e)]
      | none => acc
    processDeletes clientID rest t' s' acc'

/-- The FIB update callback: RouterID and the two published maps; `true`
means the hardware accepted the update, `false` a `FbossHwUpdateError`. -/
abbrev FibUpdateFunction := Nat → RouteTable → Bool

/-- What one `updateImpl` run produces: the mutated table, the statistics,
the routes it deleted, the table it published to the FIB callback, and
whether the callback raised `FbossHwUpdateError`. -/
structure UpdateImplResult where
  table : RouteTable
  stats : UpdateStatistics
  deletedRoutes : List (Cidr × RouteNextHopEntry)
  published : List RouteTable
  hwError : Bool
deriving DecidableEq, Repr

/-- The `if (resetClientsRoutes)` head of `updateImpl`: the table after the
optional reset and the routes the reset deleted. -/
def resetPair (clientID : Nat) (resetClientsRoutes : Bool) (t : RouteTable) :
    RouteTable × List (Cidr × RouteNextHopEntry) :=
  if resetClientsRoutes then RouteTable.removeAllRoutesForClient clientID t
  else (t, [])

/-- `RoutingInformationBase::updateImpl`: optionally reset the client's
routes, apply the adds then the deletes, publish the resulting tables to the
FIB callback, and surface a `FbossHwUpdateError` from the callback. -/
def updateImpl (fibUpdateCallback : FibUpdateFunction)
    (routerID clientID adminDistanceFromClientID : Nat)
    (toAdd : List UnicastRoute) (toDelete : List Cidr)
    (resetClientsRoutes : Bool) (t : RouteTable) : UpdateImplResult :=
  let (t0, deleted0) := resetPair clientID resetClientsRoutes t
  let (t1, s1) := processAdds clientID adminDistanceFromClientID toAdd t0
    UpdateStatistics.zero
  let (t2, s2, deleted) := processDeletes clientID toDelete t1 s1 deleted0
  let ok := fibUpdateCallback routerID t2
  ⟨t2, s2, deleted, [t2], !ok⟩

/-- The table an update call (without the FIB publish) produces: reset,
then adds, then deletes. -/
def updateTargetTable (clientID adminDistance : Nat)
    (toAdd : List UnicastRoute) (toDelete : List Cidr) (reset : Bool)
    (t : RouteTable) : RouteTable :=
  (processDeletes clientID toDelete
    (processAdds clientID adminDistance toAdd
      (resetPair clientID reset t).1 UpdateStatistics.zero).1
    (processAdds clientID adminDistance toAdd
      (resetPair clientID reset t).1 UpdateStatistics.zero).2
    (resetPair clientID reset t).2).1

/-- The statistics an update call produces. -/
def updateTargetStats (clientID adminDistance : Nat)
    (toAdd : List UnicastRoute) (toDelete : List Cidr) (reset : Bool)
    (t : RouteTable) : UpdateStatistics :=
  (processDeletes clientID toDelete
    (processAdds clientID adminDistance toAdd
      (resetPair clientID reset t).1 UpdateStatistics.zero).1
    (processAdds clientID adminDistance toAdd
      (resetPair clientID reset t).1 UpdateStatistics.zero).2
    (resetPair clientID reset t).2).2.1

/-- The deleted-route records an update call accumulates: the reset's
records followed by the explicit deletes' records. -/
def updateDeletedRoutes (clientID adminDistance : Nat)
    (toAdd : List UnicastRoute) (toDelete : List Cidr) (reset : Bool)
    (t : RouteTable) : List (Cidr × RouteNextHopEntry) :=
  (processDeletes clientID toDelete
    (processAdds clientID adminDistance toAdd
      (resetPair clientID reset t).1 UpdateStatistics.zero).1
    (processAdds clientID adminDistance toAdd
      (resetPair clientID reset t).1 UpdateStatistics.zero).2
    (resetPair clientID reset t).2).2.2

/-- The representation and client-discipline invariants one family map
needs for rollback fidelity: keys sorted; every route stored under the
encoding of its own network, in the map of its network's family, with a
mask length below the encoding bound and a key-sorted contribution map;
and the client's contribution, where present, carried at the given admin
distance (`RouteNextHopEntry::from` re-adds rolled-back routes at the
calling client's distance). -/
def treeRollbackWf (clientID adminDistance : Nat) (af : Bool)
    (m : NetworkToRouteMap) : Bool :=
  asorted m && m.all (fun kr =>
    (kr.1 == kr.2.network.key) &&
    (kr.2.network.ip.isV4 == af) &&
    decide (kr.2.network.len < 256) &&
    asorted kr.2.entries &&
    (match alookup clientID kr.2.entries with
     | none => true
     | some e => e.adminDistance == adminDistance))

/-- Rollback well-formedness of a route table: both family maps. -/
def RouteTable.rollbackWf (clientID adminDistance : Nat) (t : RouteTable) :
    Bool :=
  treeRollbackWf clientID adminDistance true t.v4NetworkToRoute &&
    treeRollbackWf clientID adminDistance false t.v6NetworkToRoute

/-- How an update call ends: statistics on success, or the exception kind
that escapes (`FbossError` for an unknown VRF, `FbossHwUpdateError`
re-raised after a successful rollback, and a fatal termination when the
rollback publish itself fails). -/
inductive RibResult where
  | ok (stats : UpdateStatistics)
  | err (unknownVrf : Bool)
  | hwUpdateError
  | fatal
deriving DecidableEq, Repr

/-- The full observable outcome of `RoutingInformationBase::update`: the
VRF map afterwards, the result, and the per-VRF tables published to the FIB
callback, in order. -/
structure UpdateOutcome where
  rib : RouterIDToRouteTable
  result : RibResult
  published : List (Nat × RouteTable)
deriving DecidableEq, Repr

/-- `RoutingInformationBase::update`: look up the VRF (throwing `FbossError`
before any mutation if it is not configured), run `updateImpl`, and on
`FbossHwUpdateError` roll back — re-add what was deleted, delete the
networks of `toAdd` — republish via the same callback, then re-raise.  A
failure of the rollback publish terminates the process. -/
def update (fibUpdateCallback : FibUpdateFunction)
    (routerID clientID adminDistanceFromClientID : Nat)
    (toAdd : List UnicastRoute) (toDelete : List Cidr)
    (resetClientsRoutes : Bool) (rib : RouterIDToRouteTable) : UpdateOutcome :=
  match alookup routerID rib with
  | none => ⟨rib, .err true, []⟩
  | some t =>
    let r1 := updateImpl fibUpdateCallback routerID clientID
      adminDistanceFromClientID toAdd toDelete resetClientsRoutes t
    if r1.hwError then
      let addsToRollback := toAdd.map (·.dest)
      let deletesToRollback := r1.deletedRoutes.map
        (fun pe => toUnicastRoute pe.1 pe.2)
      let r2 := updateImpl fibUpdateCallback routerID clientID
        adminDistanceFromClientID deletesToRollback addsToRollback
        resetClientsRoutes r1.table
      if r2.hwError then
        ⟨ainsert routerID r2.table rib, .fatal,
          (r1.published ++ r2.published).map (fun tb => (routerID, tb))⟩
      else
        ⟨ainsert routerID r2.table rib, .hwUpdateError,
          (r1.published ++ r2.published).map (fun tb => (routerID, tb))⟩
    else
      ⟨ainsert routerID r1.table rib, .ok r1.stats,
        r1.published.map (fun tb => (routerID, tb))⟩

/-! ### The read and bookkeeping operations of the coordinator
(`RoutingInformationBase.cpp`). -/

/-- `RoutingInformationBase::ensureVrf`: `std::map::insert` of an empty
table — a no-op when the RouterID is already present. -/
def ensureVrf (rid : Nat) (rib : RouterIDToRouteTable) : RouterIDToRouteTable :=
  match alookup rid rib with
  | some _ => rib
  | none => ainsert rid RouteTable.empty rib

/-- `RoutingInformationBase::getVrfList`, exactly as written: the result
vector is CONSTRUCTED with `size()` value-initialized elements
(`RouterID(0)` each) and the RouterIDs are then `push_back`ed after them. -/
def getVrfList (rib : RouterIDToRouteTable) : List Nat :=
  List.replicate rib.length 0 ++ rib.map Prod.fst

/-- `Route::toRouteDetails` flattens a route for the thrift reader; the
details keep the network and the client contributions. -/
abbrev RouteDetails := RibRoute

/-- `RoutingInformationBase::getRouteTableDetails`: the v4 routes then the
v6 routes of the VRF; an unconfigured RouterID yields the empty vector —
the `if (it != end)` guard silently skips the body. -/
def getRouteTableDetails (rib : RouterIDToRouteTable) (rid : Nat) :
    List RouteDetails :=
  match alookup rid rib with
  | none => []
  | some t =>
    t.v4NetworkToRoute.map Prod.snd ++ t.v6NetworkToRoute.map Prod.snd

/-! ### Snapshot codec

`RoutingInformationBase::toFollyDynamic` / `fromFollyDynamic`.  The
serializer emits, per VRF, the RouterID and the dump of each family map;
the loader replays the top-level entries into a fresh VRF map.  The
per-family map codec (`NetworkToRouteMap::toFollyDynamic`) is not among the
sources at hand and is modelled from the spec (§4.6): each tree serializes
to its ordered list of route records — network plus client entries —
and deserialization re-inserts each record, rederiving forwarding by
resolution afterwards (forwarding is derived data in this embedding). -/

/-- One serialized route: its network and client contributions (§4.6). -/
structure RouteDump where
  network : Cidr
  clientEntries : List (Nat × RouteNextHopEntry)
deriving DecidableEq, Repr

abbrev TreeDump := List RouteDump

/-- Modelled from the spec: `NetworkToRouteMap::toFollyDynamic` — the
ordered route records of the map. -/
def treeToDump (m : NetworkToRouteMap) : TreeDump :=
  m.map (fun kr => ⟨kr.2.network, kr.2.entries⟩)

/-- Modelled from the spec: `NetworkToRouteMap::fromFollyDynamic` —
insert every serialized route into a fresh map. -/
def treeFromDump (d : TreeDump) : NetworkToRouteMap :=
  d.foldl (fun mm it => ainsert it.network.key ⟨it.network, it.clientEntries⟩ mm) []

/-- One VRF's serialized form: the `routerId`, `v4` and `v6` fields. -/
structure VrfDump where
  routerId : Nat
  v4 : TreeDump
  v6 : TreeDump
deriving DecidableEq, Repr

/-- The serialized RIB: top-level key (the stringified RouterID) to VRF
record, in map order. -/
abbrev RibDump := List (Nat × VrfDump)

/-- `RoutingInformationBase::toFollyDynamic`. -/
def toFollyDynamic (rib : RouterIDToRouteTable) : RibDump :=
  rib.map (fun p =>
    (p.1, ⟨p.1, treeToDump p.2.v4NetworkToRoute, treeToDump p.2.v6NetworkToRoute⟩))

/-- `RoutingInformationBase::fromFollyDynamic`: insert each serialized VRF
— keyed by the top-level key read back as an integer — into a fresh map,
decoding the `v4` and `v6` fields (the stored `routerId` field is not
consulted). -/
def fromFollyDynamic (d : RibDump) : RouterIDToRouteTable :=
  d.foldl (fun mm q =>
    ainsert q.1 ⟨treeFromDump q.2.v4, treeFromDump q.2.v6⟩ mm) []

/-- Structural well-formedness of one family map: keys strictly sorted and
each key the encoding of its route's network. -/
def treeWf (m : NetworkToRouteMap) : Bool :=
  asorted m && m.all (fun kr => kr.1 == kr.2.network.key)

/-- Well-formedness of a route table: both family maps well-formed. -/
def RouteTable.wf (t : RouteTable) : Bool :=
  treeWf t.v4NetworkToRoute && treeWf t.v6NetworkToRoute

/-- Well-formedness of the VRF map: sorted, with well-formed tables. -/
def ribWf (rib : RouterIDToRouteTable) : Bool :=
  asorted rib && rib.all (fun p => p.2.wf)

/-! ### Reconfigure

`RoutingInformationBase::reconfigure` / `constructRouteTables`
(`RoutingInformationBase.cpp`), and the per-VRF `ConfigApplier`, whose body
is not among the sources at hand and is modelled from the spec (§4.4). -/

/-- The route-relevant part of a `SwitchConfig`: per-VRF interface routes
and the three flavors of static route, each carrying its VRF. -/
structure RibConfig where
  interfaceRoutes : List (Nat × List (Cidr × Nat))
  staticRoutesWithNextHops : List (Nat × Cidr × List NextHop)
  staticRoutesToNull : List (Nat × Cidr)
  staticRoutesToCpu : List (Nat × Cidr)
deriving DecidableEq, Repr

/-- `ClientID::INTERFACE_ROUTE`. -/
def kClientInterfaceRoute : Nat := 700
/-- `ClientID::STATIC_ROUTE`. -/
def kClientStaticRoute : Nat := 1
/-- `AdminDistance::DIRECTLY_CONNECTED`. -/
def kAdminDirectlyConnected : Nat := 0
/-- `AdminDistance::STATIC_ROUTE`. -/
def kAdminStaticRoute : Nat := 1
/-- `AdminDistance::MAX_ADMIN_DISTANCE`. -/
def kMaxAdminDistance : Nat := 255

/-- Modelled from the spec: `ConfigApplier::updateRibAndFib` for one VRF —
replace the interface contributions with the configured interface routes and
the static contributions with the configured static routes (drop-then-add,
§4.4 steps 1-2; resolution and the FIB publish derive from the resulting
table and are not stored in it). -/
def applyConfigToTable (vrf : Nat) (cfg : RibConfig) (t : RouteTable) :
    RouteTable :=
  let t1 := (RouteTable.removeAllRoutesForClient kClientInterfaceRoute t).1
  let t2 := (RouteTable.removeAllRoutesForClient kClientStaticRoute t1).1
  let ifRoutes := match alookup vrf cfg.interfaceRoutes with
    | some l => l
    | none => []
  let t3 := ifRoutes.foldl (fun tb pr =>
    tb.addRoute pr.1 kClientInterfaceRoute
      ⟨.nexthops, kAdminDirectlyConnected, [⟨pr.1.ip, some pr.2⟩]⟩) t2
  let t4 := (cfg.staticRoutesToCpu.filter (fun q => q.1 == vrf)).foldl
    (fun tb q => tb.addRoute q.2 kClientStaticRoute
      ⟨.toCpu, kAdminStaticRoute, []⟩) t3
  let t5 := (cfg.staticRoutesToNull.filter (fun q => q.1 == vrf)).foldl
    (fun tb q => tb.addRoute q.2 kClientStaticRoute
      ⟨.drop, kAdminStaticRoute, []⟩) t4
  (cfg.staticRoutesWithNextHops.filter (fun q => q.1 == vrf)).foldl
    (fun tb q => tb.addRoute q.2.1 kClientStaticRoute
      ⟨.nexthops, kAdminStaticRoute, q.2.2⟩) t5

/-- `RoutingInformationBase::constructRouteTables`: the new VRF map holds
exactly the VRFs of the config — keeping the existing table of a VRF
already in the RIB, and an empty table for a VRF new to it. -/
def constructRouteTables (lockedRouteTables : RouterIDToRouteTable)
    (configRouterIDToInterfaceRoutes : List (Nat × List (Cidr × Nat))) :
    RouterIDToRouteTable :=
  configRouterIDToInterfaceRoutes.map (fun p =>
    (p.1, match alookup p.1 lockedRouteTables with
          | some t => t
          | none => RouteTable.empty))

/-- `RoutingInformationBase::reconfigure`: replace the VRF map via
`constructRouteTables`, then run the `ConfigApplier` on every remaining
VRF. -/
def reconfigure (cfg : RibConfig) (rib : RouterIDToRouteTable) :
    RouterIDToRouteTable :=
  let newTables := constructRouteTables rib cfg.interfaceRoutes
  newTables.map (fun p => (p.1, applyConfigToTable p.1 cfg p.2))

/-! ### Recursive resolution

Modelled from the spec (§4.3): the resolver itself
(`RibRouteUpdater::resolve`) is not among the sources at hand; the model
follows the spec's algorithm — longest-prefix match in the same VRF and
family, skipping routes on the resolution stack, inheriting DROP/TO_CPU
from the matched route, recursing through NEXTHOPS matches, and combining
per-next-hop results with DROP preferred over TO_CPU when no next hop
resolves to a next-hop set.  The scenario expectations come from the
`StaticRoutes.configureUnconfigure` test. -/

/-- The outcome of resolving one unresolved next hop. -/
inductive NhResolution where
  | drop
  | toCpu
  | nhops (s : List (Nat × IpAddr))
  | unresolved
deriving DecidableEq, Repr

/-- Does the network of route `(k, r)` cover `addr` (family width `w`)? -/
def coversAddr (w : Nat) (r : RibRoute) (addr : Nat) : Bool :=
  r.network.len ≤ w && (addr / 2 ^ (w - r.network.len)
    == r.network.ip.val / 2 ^ (w - r.network.len))

/-- Longest-prefix match for `addr` over the map, skipping the keys on the
resolution stack. -/
def longestMatchEx (skip : List Nat) (m : NetworkToRouteMap) (addr : Nat)
    (w : Nat) : Option (Nat × RibRoute) :=
  m.foldl (fun best kr =>
    if coversAddr w kr.2 addr && !(skip.contains kr.1) then
      match best with
      | none => some kr
      | some b => if b.2.network.len < kr.2.network.len then some kr else best
    else best) none

/-- `best_entry` (§4.2): the contribution with the lowest admin distance,
ties broken by the deterministic client order (lower ClientID first, the
configured priority order of this model). -/
def bestEntryOf (r : RibRoute) : Option (Nat × RouteNextHopEntry) :=
  r.entries.foldl (fun best ce =>
    match best with
    | none => some ce
    | some b =>
      if ce.2.adminDistance < b.2.adminDistance then some ce else best) none

/-- Is the route a connected (interface) route: its best contribution is the
interface client's? -/
def isConnected (r : RibRoute) : Bool :=
  match bestEntryOf r with
  | some (c, _) => c == kClientInterfaceRoute
  | none => false

/-- The interface of a connected route's contribution, if any. -/
def connectedIntf (r : RibRoute) : Nat :=
  match bestEntryOf r with
  | some (_, e) =>
    match e.nexthops with
    | nh :: _ => nh.intf.getD 0
    | [] => 0
  | none => 0

/-- The union of the resolved next-hop sets among per-next-hop results. -/
def unionOf (results : List NhResolution) : List (Nat × IpAddr) :=
  results.foldl (fun acc r =>
    match r with
    | NhResolution.nhops s => acc ++ s
    | _ => acc) []

/-- Combine per-next-hop results (§4.3 step 2): the union of resolved
next-hop sets if any; otherwise DROP if any next hop resolved to DROP,
then TO_CPU, then unresolved. -/
def combineResults (results : List NhResolution) : NhResolution :=
  if (unionOf results).isEmpty then
    if results.any (fun x => x == .drop) then .drop
    else if results.any (fun x => x == .toCpu) then .toCpu
    else .unresolved
  else .nhops (unionOf results)

/-- Resolve one unresolved next hop against the map (§4.3 step 1),
recursing through NEXTHOPS matches with the matched route pushed on the
resolution stack; the fuel bounds the recursion depth by the address
width. -/
def resolveNh (fuel : Nat) (m : NetworkToRouteMap) (w : Nat)
    (stack : List Nat) (nh : NextHop) : NhResolution :=
  match nh.intf with
  | some i => .nhops [(i, nh.addr)]
  | none =>
    match longestMatchEx stack m nh.addr.val w with
    | none => .unresolved
    | some (kM, M) =>
      if isConnected M then .nhops [(connectedIntf M, nh.addr)]
      else
        match bestEntryOf M with
        | none => .unresolved
        | some (_, be) =>
          match be.action with
          | .drop => .drop
          | .toCpu => .toCpu
          | .nexthops =>
            match fuel with
            | 0 => .unresolved
            | fuel' + 1 =>
              combineResults
                (be.nexthops.map (resolveNh fuel' m w (kM :: stack)))

/-- Resolve a contribution's next hops and combine their results. -/
def resolveNhList (fuel : Nat) (m : NetworkToRouteMap) (w : Nat)
    (stack : List Nat) (nhs : List NextHop) : NhResolution :=
  combineResults (nhs.map (resolveNh fuel m w stack))

/-- The derived forwarding information of a route. -/
inductive ForwardInfo where
  | fwd (action : RouteForwardAction) (adminDistance : Nat)
      (nexthops : List (Nat × IpAddr))
  | unresolvable
deriving DecidableEq, Repr

/-- Resolve a route of the map (§4.3): DROP and TO_CPU contributions
forward directly (at `MAX_ADMIN_DISTANCE`, as `Route::setResolved`
records them); NEXTHOPS contributions resolve each next hop recursively,
the route itself starting on the resolution stack (no self-cover). -/
def resolveRoute (m : NetworkToRouteMap) (w : Nat) (k : Nat) (r : RibRoute) :
    ForwardInfo :=
  match bestEntryOf r with
  | none => .unresolvable
  | some (_, be) =>
    match be.action with
    | .drop => .fwd .drop kMaxAdminDistance []
    | .toCpu => .fwd .toCpu kMaxAdminDistance []
    | .nexthops =>
      match resolveNhList w m w [k] be.nexthops with
      | .drop => .fwd .drop kMaxAdminDistance []
      | .toCpu => .fwd .toCpu kMaxAdminDistance []
      | .nhops s => .fwd .nexthops be.adminDistance s
      | .unresolved => .unresolvable

/-! ### Derived quantities used by the claims -/

/-- Number of IPv4 routes in an add batch. -/
def countV4Adds (l : List UnicastRoute) : Nat :=
  (l.filter (fun r => r.dest.ip.isV4)).length

/-- Number of IPv6 routes in an add batch. -/
def countV6Adds (l : List UnicastRoute) : Nat :=
  (l.filter (fun r => !r.dest.ip.isV4)).length

/-- Number of IPv4 networks in a delete batch. -/
def countV4Dels (l : List Cidr) : Nat :=
  (l.filter (fun p => p.ip.isV4)).length

/-- Number of IPv6 networks in a delete batch. -/
def countV6Dels (l : List Cidr) : Nat :=
  (l.filter (fun p => !p.ip.isV4)).length

/-- Does the next hop, on longest-prefix match over the map (skipping the
resolution stack), land on a non-connected route whose best contribution
carries the given action?  This is the situation in which resolution makes
the dependent route inherit that action. -/
def nhInheritsAction (m : NetworkToRouteMap) (w : Nat) (skip : List Nat)
    (a : RouteForwardAction) (nh : NextHop) : Bool :=
  match nh.intf with
  | some _ => false
  | none =>
    match longestMatchEx skip m nh.addr.val w with
    | none => false
    | some (_, M) =>
      if isConnected M then false
      else
        match bestEntryOf M with
        | none => false
        | some (_, be) => be.action == a

/-- The static-route configuration of the
`StaticRoutes.configureUnconfigure` test, v4 part: `1.1.1.1/32 → NULL`,
`2.2.2.2/32 → CPU`, `3.3.3.3/32 via 1.1.1.1`, `4.4.4.4/32 via 2.2.2.2`,
all in VRF 0.  `16843009 = 1.1.1.1`, `33686018 = 2.2.2.2`,
`50529027 = 3.3.3.3`, `67372036 = 4.4.4.4`. -/
def staticScenarioCfg : RibConfig :=
  ⟨[(0, [])],
    [(0, ⟨.v4 50529027, 32⟩, [⟨.v4 16843009, none⟩]),
      (0, ⟨.v4 67372036, 32⟩, [⟨.v4 33686018, none⟩])],
    [(0, ⟨.v4 16843009, 32⟩)],
    [(0, ⟨.v4 33686018, 32⟩)]⟩

/-- The VRF-0 route table the scenario config produces. -/
def staticScenarioTable : RouteTable :=
  applyConfigToTable 0 staticScenarioCfg RouteTable.empty

/-- The pre-update client contribution of the C1 counterexample. -/
def cexEntryOld : RouteNextHopEntry := ⟨.nexthops, 7, [⟨.v4 1, none⟩]⟩

/-- A one-VRF RIB in which network 5/32 already carries client 10's
contribution.  `1312 = 5 * 256 + 32`. -/
def cexRib : RouterIDToRouteTable :=
  [(0, ⟨[(1312, ⟨⟨.v4 5, 32⟩, [(10, cexEntryOld)]⟩)], []⟩)]

/-- An update by client 10 that overwrites its existing contribution for
network 5/32 with new next hops. -/
def cexAdd : UnicastRoute := ⟨⟨.v4 5, 32⟩, .nexthops, [⟨.v4 2, none⟩]⟩

/-- The table after the overwriting add. -/
def cexBadTable : RouteTable :=
  ⟨[(1312, ⟨⟨.v4 5, 32⟩, [(10, ⟨.nexthops, 7, [⟨.v4 2, none⟩]⟩)]⟩)], []⟩

/-- A FIB callback that rejects exactly the post-add table, so the first
publish raises `FbossHwUpdateError` and the rollback publish succeeds. -/
def cexCb : FibUpdateFunction := fun _ tb => !(tb == cexBadTable)

/-- The adds of an update batch, applied in order to one family map. -/
def addListTree (c d : Nat) :
    List UnicastRoute → NetworkToRouteMap → NetworkToRouteMap
  | [], m => m
  | r :: rest, m =>
    addListTree c d rest
      (addToTree r.dest c (RouteNextHopEntry.fromRoute r d) m)

/-- The deletes of an update batch, applied in order to one family map. -/
def delListTree (c : Nat) : List Cidr → NetworkToRouteMap → NetworkToRouteMap
  | [], m => m
  | p :: rest, m => delListTree c rest (delFromTree p c m).1

/-- The deletes of an update batch on one family map, together with the
deleted (network, contribution) records in processing order — the
per-family view of the `deletedRoutes` the delete loop accumulates. -/
def delRecTree (c : Nat) :
    List Cidr → NetworkToRouteMap →
      NetworkToRouteMap × List (Cidr × RouteNextHopEntry)
  | [], m => (m, [])
  | p :: rest, m =>
    let (m', del) := delFromTree p c m
    let (mF, recs) := delRecTree c rest m'
    match del with
    | some e => (mF, (p, e) :: recs)
    | none => (mF, recs)

/-- Re-adding deleted records on one family map, in order, each at the
call's admin distance — the per-family view of the rollback's re-add of
`deletesToRollback`. -/
def addRecsTree (c d : Nat) :
    List (Cidr × RouteNextHopEntry) → NetworkToRouteMap → NetworkToRouteMap
  | [], m => m
  | (p, e) :: rest, m =>
    addRecsTree c d rest (addToTree p c ⟨e.action, d, e.nexthops⟩ m)

/-! ### Claims -/

/-- C2: for every RIB state and every update call naming a VRF that is not
present in the VRF map, the call fails with the unknown-VRF `FbossError`,
before any route is added or deleted: the RIB state is unchanged and
nothing is published to the FIB callback. -/
theorem update_unknown_vrf_rejected_before_mutation
    (cb : FibUpdateFunction) (rid c d : Nat) (toAdd : List UnicastRoute)
    (toDelete : List Cidr) (reset : Bool) (rib : RouterIDToRouteTable)
    (h : alookup rid rib = none) :
    update cb rid c d toAdd toDelete reset rib = ⟨rib, .err true, []⟩ := by
  unfold update
  rw [h]

/-- Witness for C2 at a concrete input: VRF 5 is absent from a one-VRF map,
and the update returns the unchanged state with the unknown-VRF error. -/
theorem update_unknown_vrf_witness :
    alookup 5 [(0, RouteTable.empty)] = none ∧
      update (fun _ _ => true) 5 1 1 [] [] false [(0, RouteTable.empty)] =
        ⟨[(0, RouteTable.empty)], .err true, []⟩ :=
  ⟨by decide,
    update_unknown_vrf_rejected_before_mutation (fun _ _ => true) 5 1 1 [] []
      false [(0, RouteTable.empty)] (by decide)⟩

/-- C3, evaluated at the failing input: with exactly VRF 0 configured,
`getVrfList` returns `[0, 0]` — the vector is constructed with `size()`
value-initialized `RouterID(0)` elements and the ids are pushed after them
— instead of the `[0]` the claim (and the reconfigure scenario) requires. -/
theorem getVrfList_code_bug :
    getVrfList [(0, RouteTable.empty)] = [0, 0] ∧
      getVrfList [(0, RouteTable.empty)] ≠ [0] := by
  decide

/-- C4 counterexample: on a RIB that does not configure VRF 5,
`getRouteTableDetails` returns the empty vector instead of failing — the
`if (it != end)` guard silently skips the body, so no unknown-VRF error is
raised on this path. -/
theorem getRouteTableDetails_unknown_vrf_counterexample :
    alookup 5 [(0, RouteTable.empty)] = none ∧
      getRouteTableDetails [(0, RouteTable.empty)] 5 = [] := by
  decide

/-- C4 as amended: for every RIB state and every VRF id not present in the
VRF map, `getRouteTableDetails` returns the empty vector (it does not
fail). -/
theorem getRouteTableDetails_unknown_vrf_empty
    (rib : RouterIDToRouteTable) (rid : Nat)
    (h : alookup rid rib = none) :
    getRouteTableDetails rib rid = [] := by
  unfold getRouteTableDetails
  rw [h]

/-- Witness for the amended C4 at a concrete input. -/
theorem getRouteTableDetails_unknown_vrf_witness :
    alookup 9 ([] : RouterIDToRouteTable) = none ∧
      getRouteTableDetails [] 9 = [] :=
  ⟨rfl, getRouteTableDetails_unknown_vrf_empty [] 9 rfl⟩

/-- C8: `ensureVrf` is idempotent — a second call with the same RouterID
changes nothing — and on a RouterID already in the VRF map it leaves the
map, in particular that VRF's route table, unchanged. -/
theorem ensureVrf_idempotent (rib : RouterIDToRouteTable) (rid : Nat) :
    ensureVrf rid (ensureVrf rid rib) = ensureVrf rid rib ∧
      ((alookup rid rib).isSome → ensureVrf rid rib = rib) := by
  constructor
  · cases h : alookup rid rib with
    | some t =>
      have h1 : ensureVrf rid rib = rib := by unfold ensureVrf; rw [h]
      rw [h1, h1]
    | none =>
      have h1 : ensureVrf rid rib = ainsert rid RouteTable.empty rib := by
        unfold ensureVrf; rw [h]
      rw [h1]
      unfold ensureVrf
      rw [alookup_ainsert_self]
  · intro hsome
    cases h : alookup rid rib with
    | some t => unfold ensureVrf; rw [h]
    | none => rw [h] at hsome; cases hsome

/-- Witness for C8 at a concrete input: VRF 3 is already configured, and
both calls leave the map untouched. -/
theorem ensureVrf_idempotent_witness :
    ensureVrf 3 (ensureVrf 3 [(3, RouteTable.empty)]) =
        ensureVrf 3 [(3, RouteTable.empty)] ∧
      ensureVrf 3 [(3, RouteTable.empty)] = [(3, RouteTable.empty)] :=
  ⟨(ensureVrf_idempotent [(3, RouteTable.empty)] 3).1,
    (ensureVrf_idempotent [(3, RouteTable.empty)] 3).2 (by decide)⟩

theorem processAdds_stats (c d : Nat) :
    ∀ (l : List UnicastRoute) (t : RouteTable) (s : UpdateStatistics),
      (processAdds c d l t s).2 =
        ⟨s.v4RoutesAdded + countV4Adds l, s.v4RoutesDeleted,
          s.v6RoutesAdded + countV6Adds l, s.v6RoutesDeleted⟩ := by
  intro l
  induction l with
  | nil =>
    intro t s
    simp [processAdds, countV4Adds, countV6Adds]
  | cons r rest ih =>
    intro t s
    cases hv : r.dest.ip.isV4 with
    | true =>
      simp only [processAdds, hv]
      rw [ih]
      simp [countV4Adds, countV6Adds, List.filter_cons, hv,
        UpdateStatistics.mk.injEq]
      omega
    | false =>
      simp only [processAdds, hv]
      rw [ih]
      simp [countV4Adds, countV6Adds, List.filter_cons, hv,
        UpdateStatistics.mk.injEq]
      omega

theorem processDeletes_stats (c : Nat) :
    ∀ (l : List Cidr) (t : RouteTable) (s : UpdateStatistics)
      (acc : List (Cidr × RouteNextHopEntry)),
      (processDeletes c l t s acc).2.1 =
        ⟨s.v4RoutesAdded, s.v4RoutesDeleted + countV4Dels l,
          s.v6RoutesAdded, s.v6RoutesDeleted + countV6Dels l⟩ := by
  intro l
  induction l with
  | nil =>
    intro t s acc
    simp [processDeletes, countV4Dels, countV6Dels]
  | cons p rest ih =>
    intro t s acc
    rcases htd : t.delRoute p c with ⟨t', del⟩
    cases hv : p.ip.isV4 with
    | true =>
      simp only [processDeletes, hv, htd]
      cases del with
      | some e =>
        rw [ih]
        simp [countV4Dels, countV6Dels, List.filter_cons, hv,
          UpdateStatistics.mk.injEq]
        omega
      | none =>
        rw [ih]
        simp [countV4Dels, countV6Dels, List.filter_cons, hv,
          UpdateStatistics.mk.injEq]
        omega
    | false =>
      simp only [processDeletes, hv, htd]
      cases del with
      | some e =>
        rw [ih]
        simp [countV4Dels, countV6Dels, List.filter_cons, hv,
          UpdateStatistics.mk.injEq]
        omega
      | none =>
        rw [ih]
        simp [countV4Dels, countV6Dels, List.filter_cons, hv,
          UpdateStatistics.mk.injEq]
        omega

theorem updateImpl_stats_counts (cb : FibUpdateFunction)
    (rid c d : Nat) (toAdd : List UnicastRoute) (toDelete : List Cidr)
    (reset : Bool) (t : RouteTable) :
    (updateImpl cb rid c d toAdd toDelete reset t).stats =
      ⟨countV4Adds toAdd, countV4Dels toDelete,
        countV6Adds toAdd, countV6Dels toDelete⟩ := by
  rcases h0 : resetPair c reset t with ⟨t0, d0⟩
  rcases h1 : processAdds c d toAdd t0 UpdateStatistics.zero with ⟨t1, s1⟩
  rcases h2 : processDeletes c toDelete t1 s1 d0 with ⟨t2, s2, dd⟩
  simp only [updateImpl, h0, h1, h2]
  have e1 := processAdds_stats c d toAdd t0 UpdateStatistics.zero
  rw [h1] at e1
  have e2 := processDeletes_stats c toDelete t1 s1 d0
  rw [h2] at e2
  simp only at e1 e2 ⊢
  rw [e2, e1]
  simp [UpdateStatistics.zero]

/-- C10: every successful update call returns statistics that count the
input batches by address family — `v4RoutesAdded`/`v6RoutesAdded` are the
IPv4/IPv6 counts of `toAdd` and `v4RoutesDeleted`/`v6RoutesDeleted` the
IPv4/IPv6 counts of `toDelete`, deletes being counted whether or not the
network existed: the counters measure the requested delta. -/
theorem update_stats_count_requested_delta (cb : FibUpdateFunction)
    (rid c d : Nat) (toAdd : List UnicastRoute) (toDelete : List Cidr)
    (reset : Bool) (rib : RouterIDToRouteTable) (st : UpdateStatistics)
    (h : (update cb rid c d toAdd toDelete reset rib).result = .ok st) :
    st.v4RoutesAdded = countV4Adds toAdd ∧
      st.v6RoutesAdded = countV6Adds toAdd ∧
      st.v4RoutesDeleted = countV4Dels toDelete ∧
      st.v6RoutesDeleted = countV6Dels toDelete := by
  unfold update at h
  cases hl : alookup rid rib with
  | none => rw [hl] at h; cases h
  | some t =>
    rw [hl] at h
    simp only at h
    by_cases hw : (updateImpl cb rid c d toAdd toDelete reset t).hwError = true
    · simp only [hw, if_true] at h
      by_cases hw2 : (updateImpl cb rid c d
          ((updateImpl cb rid c d toAdd toDelete reset t).deletedRoutes.map
            (fun pe => toUnicastRoute pe.1 pe.2))
          (toAdd.map (·.dest)) reset
          (updateImpl cb rid c d toAdd toDelete reset t).table).hwError = true
      · rw [if_pos hw2] at h; cases h
      · rw [if_neg hw2] at h; cases h
    · simp only [Bool.not_eq_true] at hw
      rw [hw] at h
      simp only [Bool.false_eq_true, if_false, RibResult.ok.injEq] at h
      rw [← h, updateImpl_stats_counts]
      exact ⟨rfl, rfl, rfl, rfl⟩

/-- Witness for C10 at a concrete input: one v4 add, one v6 add and one v4
delete of a network absent from the table; the returned statistics are
(1, 1, 1, 0), counting the missed delete. -/
theorem update_stats_witness :
    (1 : Nat) = countV4Adds
        [⟨⟨.v4 1, 32⟩, .nexthops, [⟨.v4 9, none⟩]⟩,
          ⟨⟨.v6 1, 128⟩, .drop, []⟩] ∧
      (1 : Nat) = countV6Adds
        [⟨⟨.v4 1, 32⟩, .nexthops, [⟨.v4 9, none⟩]⟩,
          ⟨⟨.v6 1, 128⟩, .drop, []⟩] ∧
      (1 : Nat) = countV4Dels [⟨.v4 7, 32⟩] ∧
      (0 : Nat) = countV6Dels [⟨.v4 7, 32⟩] :=
  update_stats_count_requested_delta (fun _ _ => true) 0 1 20
    [⟨⟨.v4 1, 32⟩, .nexthops, [⟨.v4 9, none⟩]⟩, ⟨⟨.v6 1, 128⟩, .drop, []⟩]
    [⟨.v4 7, 32⟩] false [(0, RouteTable.empty)] ⟨1, 1, 1, 0⟩ (by decide)

/-- C9: a `toDelete` entry naming a (network, client) pair with no matching
client contribution is a no-op — `delRoute` reports nothing deleted and
leaves the table unchanged — and the delete loop just counts it and
continues with the remaining deletes on the unchanged table; nothing
fails. -/
theorem delete_nonexistent_noop (t : RouteTable) (p : Cidr) (c : Nat)
    (ds : List Cidr) (s : UpdateStatistics)
    (acc : List (Cidr × RouteNextHopEntry))
    (h : t.clientLookup p c = none) :
    t.delRoute p c = (t, none) ∧
      processDeletes c (p :: ds) t s acc =
        processDeletes c ds t
          (if p.ip.isV4 then { s with v4RoutesDeleted := s.v4RoutesDeleted + 1 }
           else { s with v6RoutesDeleted := s.v6RoutesDeleted + 1 }) acc := by
  have hdel : t.delRoute p c = (t, none) := by
    unfold RouteTable.clientLookup RouteTable.findRoute at h
    unfold RouteTable.delRoute delFromTree
    cases hv : p.ip.isV4 with
    | true =>
      simp only [hv, if_true] at h ⊢
      cases hr : alookup p.key t.v4NetworkToRoute with
      | none => simp [hr]
      | some r =>
        rw [hr] at h
        simp only at h
        simp [hr, h]
    | false =>
      simp only [hv, Bool.false_eq_true, if_false] at h ⊢
      cases hr : alookup p.key t.v6NetworkToRoute with
      | none => simp [hr]
      | some r =>
        rw [hr] at h
        simp only at h
        simp [hr, h]
  refine ⟨hdel, ?_⟩
  simp only [processDeletes, hdel]

/-- Witness for C9 at a concrete input: the table holds the network for
client 20 only, and deleting it for client 10 is a counted no-op. -/
theorem delete_nonexistent_noop_witness :
    RouteTable.delRoute
        ⟨[(288, ⟨⟨.v4 1, 32⟩, [(20, ⟨.drop, 1, []⟩)]⟩)], []⟩
        ⟨.v4 1, 32⟩ 10 =
      (⟨[(288, ⟨⟨.v4 1, 32⟩, [(20, ⟨.drop, 1, []⟩)]⟩)], []⟩, none) ∧
      processDeletes 10 [⟨.v4 1, 32⟩]
          ⟨[(288, ⟨⟨.v4 1, 32⟩, [(20, ⟨.drop, 1, []⟩)]⟩)], []⟩
          UpdateStatistics.zero [] =
        processDeletes 10 []
          ⟨[(288, ⟨⟨.v4 1, 32⟩, [(20, ⟨.drop, 1, []⟩)]⟩)], []⟩
          ⟨0, 1, 0, 0⟩ [] := by
  have h := delete_nonexistent_noop
    ⟨[(288, ⟨⟨.v4 1, 32⟩, [(20, ⟨.drop, 1, []⟩)]⟩)], []⟩
    ⟨.v4 1, 32⟩ 10 [] UpdateStatistics.zero [] (by decide)
  exact ⟨h.1, h.2⟩

theorem map_fst_keyed {α β : Type} (f : Nat → α → β) :
    ∀ l : List (Nat × α),
      (l.map (fun p => (p.1, f p.1 p.2))).map Prod.fst = l.map Prod.fst := by
  intro l
  induction l with
  | nil => rfl
  | cons h t ih => simp only [List.map_cons, ih]

theorem alookup_map_keyed {α β : Type} (f : Nat → α → β) (k : Nat) :
    ∀ l : List (Nat × α),
      alookup k (l.map (fun p => (p.1, f p.1 p.2))) =
        (alookup k l).map (f k) := by
  intro l
  induction l with
  | nil => rfl
  | cons h t ih =>
    obtain ⟨a, b⟩ := h
    by_cases hka : k = a
    · subst hka
      simp [alookup]
    · simp [alookup, hka, ih]

/-- C6: after a reconfigure the VRF map holds exactly the VRFs named in the
config, in config order: a VRF of the prior state absent from the config is
gone with all its routes, a VRF of the config absent from the prior state
starts from the empty table before the config is applied, and a VRF present
in both starts reconciliation from its prior route table. -/
theorem reconfigure_replaces_vrfs (cfg : RibConfig)
    (rib : RouterIDToRouteTable) :
    (reconfigure cfg rib).map Prod.fst =
        cfg.interfaceRoutes.map Prod.fst ∧
      ∀ v, alookup v (reconfigure cfg rib) =
        (alookup v cfg.interfaceRoutes).map (fun _ =>
          applyConfigToTable v cfg
            (match alookup v rib with
             | some t => t
             | none => RouteTable.empty)) := by
  have hfused : reconfigure cfg rib =
      cfg.interfaceRoutes.map (fun p =>
        (p.1, applyConfigToTable p.1 cfg
          (match alookup p.1 rib with
           | some t => t
           | none => RouteTable.empty))) := by
    unfold reconfigure constructRouteTables
    rw [List.map_map]
    rfl
  constructor
  · rw [hfused]
    exact map_fst_keyed
      (fun k _ => applyConfigToTable k cfg
        (match alookup k rib with
         | some t => t
         | none => RouteTable.empty)) cfg.interfaceRoutes
  · intro v
    rw [hfused]
    exact alookup_map_keyed
      (fun k _ => applyConfigToTable k cfg
        (match alookup k rib with
         | some t => t
         | none => RouteTable.empty)) v cfg.interfaceRoutes

theorem allLt_of_asorted_append {ν : Type} {k : Nat} {v : ν} :
    ∀ {m t : List (Nat × ν)}, asorted (m ++ (k, v) :: t) = true →
      ∀ p ∈ m, p.1 < k := by
  intro m
  induction m with
  | nil => intro t _ p hp; cases hp
  | cons h m' ih =>
    obtain ⟨a, b⟩ := h
    intro t hs p hp
    cases hp with
    | head =>
      exact lt_of_asorted_cons hs (k, v)
        (List.mem_append_right _ (List.mem_cons_self _ _))
    | tail _ hp' =>
      exact ih (asorted_cons_iff.mp hs).2 p hp'

theorem treeRebuild_aux :
    ∀ (m acc : NetworkToRouteMap),
      asorted (acc ++ m) = true →
      m.all (fun kr => kr.1 == kr.2.network.key) = true →
      List.foldl (fun mm kr =>
        ainsert kr.2.network.key ⟨kr.2.network, kr.2.entries⟩ mm) acc m =
        acc ++ m := by
  intro m
  induction m with
  | nil => intro acc _ _; simp
  | cons kr rest ih =>
    obtain ⟨k, r⟩ := kr
    intro acc hs hall
    rw [List.all_cons, Bool.and_eq_true] at hall
    have hk : k = r.network.key := by simpa using hall.1
    rw [List.foldl_cons]
    have heta : (⟨r.network, r.entries⟩ : RibRoute) = r := rfl
    rw [heta, ← hk]
    rw [ainsert_append_of_allLt r (allLt_of_asorted_append hs)]
    have hs' : asorted ((acc ++ [(k, r)]) ++ rest) = true := by
      rw [List.append_assoc]
      exact hs
    rw [ih (acc ++ [(k, r)]) hs' hall.2, List.append_assoc]
    rfl

theorem treeFromDump_treeToDump {m : NetworkToRouteMap}
    (h : treeWf m = true) : treeFromDump (treeToDump m) = m := by
  unfold treeWf at h
  rw [Bool.and_eq_true] at h
  unfold treeFromDump treeToDump
  rw [List.foldl_map]
  have haux := treeRebuild_aux m [] (by simpa using h.1) h.2
  simpa using haux

theorem ribRebuild_aux :
    ∀ (rib acc : RouterIDToRouteTable),
      asorted (acc ++ rib) = true →
      rib.all (fun p => p.2.wf) = true →
      List.foldl (fun mm p =>
        ainsert p.1 ⟨treeFromDump (treeToDump p.2.v4NetworkToRoute),
          treeFromDump (treeToDump p.2.v6NetworkToRoute)⟩ mm) acc rib =
        acc ++ rib := by
  intro rib
  induction rib with
  | nil => intro acc _ _; simp
  | cons p rest ih =>
    obtain ⟨k, t⟩ := p
    intro acc hs hall
    rw [List.all_cons, Bool.and_eq_true] at hall
    have hwf := hall.1
    unfold RouteTable.wf at hwf
    rw [Bool.and_eq_true] at hwf
    rw [List.foldl_cons]
    simp only
    rw [treeFromDump_treeToDump hwf.1, treeFromDump_treeToDump hwf.2]
    have heta : (⟨t.v4NetworkToRoute, t.v6NetworkToRoute⟩ : RouteTable) = t :=
      rfl
    rw [heta]
    rw [ainsert_append_of_allLt t (allLt_of_asorted_append hs)]
    have hs' : asorted ((acc ++ [(k, t)]) ++ rest) = true := by
      rw [List.append_assoc]
      exact hs
    rw [ih (acc ++ [(k, t)]) hs' hall.2, List.append_assoc]
    rfl

/-- C5: deserializing the serialization of a well-formed RIB yields the
same RIB — the same VRFs with the same routes and client contributions;
forwarding is derived data, rederived by resolution, and is no part of the
stored state, so this is equality up to forwarding. -/
theorem fromFollyDynamic_toFollyDynamic (rib : RouterIDToRouteTable)
    (h : ribWf rib = true) :
    fromFollyDynamic (toFollyDynamic rib) = rib := by
  unfold ribWf at h
  rw [Bool.and_eq_true] at h
  unfold toFollyDynamic fromFollyDynamic
  rw [List.foldl_map]
  have haux := ribRebuild_aux rib [] (by simpa using h.1) h.2
  simpa using haux

/-- Witness for C5 at a concrete input: a two-VRF RIB with a v4 and a v6
route survives the snapshot round trip unchanged. -/
theorem fromFollyDynamic_toFollyDynamic_witness :
    ribWf [(0, ⟨[(288, ⟨⟨.v4 1, 32⟩, [(1, ⟨.drop, 1, []⟩)]⟩)],
        [(296, ⟨⟨.v6 1, 40⟩, [(0, ⟨.nexthops, 20, [⟨.v6 2, none⟩]⟩)]⟩)]⟩),
      (1, RouteTable.empty)] = true ∧
      fromFollyDynamic (toFollyDynamic
        [(0, ⟨[(288, ⟨⟨.v4 1, 32⟩, [(1, ⟨.drop, 1, []⟩)]⟩)],
            [(296, ⟨⟨.v6 1, 40⟩, [(0, ⟨.nexthops, 20, [⟨.v6 2, none⟩]⟩)]⟩)]⟩),
          (1, RouteTable.empty)]) =
        [(0, ⟨[(288, ⟨⟨.v4 1, 32⟩, [(1, ⟨.drop, 1, []⟩)]⟩)],
            [(296, ⟨⟨.v6 1, 40⟩, [(0, ⟨.nexthops, 20, [⟨.v6 2, none⟩]⟩)]⟩)]⟩),
          (1, RouteTable.empty)] :=
  ⟨by decide,
    fromFollyDynamic_toFollyDynamic
      [(0, ⟨[(288, ⟨⟨.v4 1, 32⟩, [(1, ⟨.drop, 1, []⟩)]⟩)],
          [(296, ⟨⟨.v6 1, 40⟩, [(0, ⟨.nexthops, 20, [⟨.v6 2, none⟩]⟩)]⟩)]⟩),
        (1, RouteTable.empty)] (by decide)⟩

theorem resolveNh_inherit_drop (fuel : Nat) (m : NetworkToRouteMap)
    (w : Nat) (stack : List Nat) (nh : NextHop)
    (h : nhInheritsAction m w stack .drop nh = true) :
    resolveNh fuel m w stack nh = .drop := by
  unfold nhInheritsAction at h
  cases hintf : nh.intf with
  | some i => rw [hintf] at h; simp at h
  | none =>
    rw [hintf] at h
    simp only at h
    cases hlm : longestMatchEx stack m nh.addr.val w with
    | none => rw [hlm] at h; simp at h
    | some km =>
      obtain ⟨kM, M⟩ := km
      rw [hlm] at h
      simp only at h
      cases hconn : isConnected M with
      | true => rw [hconn] at h; simp at h
      | false =>
        rw [hconn] at h
        simp only [Bool.false_eq_true, if_false] at h
        cases hbe : bestEntryOf M with
        | none => rw [hbe] at h; simp at h
        | some cbe =>
          obtain ⟨c', be⟩ := cbe
          rw [hbe] at h
          simp only [beq_iff_eq] at h
          unfold resolveNh
          rw [hintf]
          simp only
          rw [hlm]
          simp only
          rw [hconn]
          simp only [Bool.false_eq_true, if_false]
          rw [hbe]
          simp only
          rw [h]

theorem resolveNh_inherit_toCpu (fuel : Nat) (m : NetworkToRouteMap)
    (w : Nat) (stack : List Nat) (nh : NextHop)
    (h : nhInheritsAction m w stack .toCpu nh = true) :
    resolveNh fuel m w stack nh = .toCpu := by
  unfold nhInheritsAction at h
  cases hintf : nh.intf with
  | some i => rw [hintf] at h; simp at h
  | none =>
    rw [hintf] at h
    simp only at h
    cases hlm : longestMatchEx stack m nh.addr.val w with
    | none => rw [hlm] at h; simp at h
    | some km =>
      obtain ⟨kM, M⟩ := km
      rw [hlm] at h
      simp only at h
      cases hconn : isConnected M with
      | true => rw [hconn] at h; simp at h
      | false =>
        rw [hconn] at h
        simp only [Bool.false_eq_true, if_false] at h
        cases hbe : bestEntryOf M with
        | none => rw [hbe] at h; simp at h
        | some cbe =>
          obtain ⟨c', be⟩ := cbe
          rw [hbe] at h
          simp only [beq_iff_eq] at h
          unfold resolveNh
          rw [hintf]
          simp only
          rw [hlm]
          simp only
          rw [hconn]
          simp only [Bool.false_eq_true, if_false]
          rw [hbe]
          simp only
          rw [h]

theorem foldl_union_const :
    ∀ (rs : List NhResolution) (acc : List (Nat × IpAddr)),
      (∀ x ∈ rs, x = NhResolution.drop ∨ x = NhResolution.toCpu) →
      rs.foldl (fun acc r =>
        match r with
        | NhResolution.nhops s => acc ++ s
        | _ => acc) acc = acc := by
  intro rs
  induction rs with
  | nil => intro acc _; rfl
  | cons x rest ih =>
    intro acc hall
    rw [List.foldl_cons]
    rcases hall x (List.mem_cons_self _ _) with hx | hx <;>
      · subst hx
        exact ih acc (fun y hy => hall y (List.mem_cons_of_mem _ hy))

theorem unionOf_terminal (rs : List NhResolution)
    (h : ∀ x ∈ rs, x = NhResolution.drop ∨ x = NhResolution.toCpu) :
    unionOf rs = [] := by
  unfold unionOf
  exact foldl_union_const rs [] h

theorem resolveNhList_all_drop (fuel : Nat) (m : NetworkToRouteMap)
    (w : Nat) (stack : List Nat) (nhs : List NextHop) (hne : nhs ≠ [])
    (h : ∀ nh ∈ nhs, resolveNh fuel m w stack nh = .drop) :
    resolveNhList fuel m w stack nhs = .drop := by
  unfold resolveNhList combineResults
  have hall : ∀ x ∈ nhs.map (resolveNh fuel m w stack), x = NhResolution.drop := by
    intro x hx
    obtain ⟨nh, hnh, rfl⟩ := List.mem_map.mp hx
    exact h nh hnh
  rw [unionOf_terminal _ (fun x hx => Or.inl (hall x hx))]
  have hany : (nhs.map (resolveNh fuel m w stack)).any
      (fun x => x == NhResolution.drop) = true := by
    rw [List.any_eq_true]
    cases nhs with
    | nil => exact absurd rfl hne
    | cons n rest =>
      refine ⟨resolveNh fuel m w stack n, List.mem_map_of_mem _ (List.mem_cons_self _ _), ?_⟩
      rw [hall _ (List.mem_map_of_mem _ (List.mem_cons_self _ _))]
      rfl
  rw [hany]
  rfl

theorem resolveNhList_all_toCpu (fuel : Nat) (m : NetworkToRouteMap)
    (w : Nat) (stack : List Nat) (nhs : List NextHop) (hne : nhs ≠ [])
    (h : ∀ nh ∈ nhs, resolveNh fuel m w stack nh = .toCpu) :
    resolveNhList fuel m w stack nhs = .toCpu := by
  unfold resolveNhList combineResults
  have hall : ∀ x ∈ nhs.map (resolveNh fuel m w stack), x = NhResolution.toCpu := by
    intro x hx
    obtain ⟨nh, hnh, rfl⟩ := List.mem_map.mp hx
    exact h nh hnh
  rw [unionOf_terminal _ (fun x hx => Or.inr (hall x hx))]
  have hnodrop : (nhs.map (resolveNh fuel m w stack)).any
      (fun x => x == NhResolution.drop) = false := by
    rw [Bool.eq_false_iff]
    intro hc
    rw [List.any_eq_true] at hc
    obtain ⟨x, hx, hbx⟩ := hc
    rw [hall x hx] at hbx
    cases hbx
  have hany : (nhs.map (resolveNh fuel m w stack)).any
      (fun x => x == NhResolution.toCpu) = true := by
    rw [List.any_eq_true]
    cases nhs with
    | nil => exact absurd rfl hne
    | cons n rest =>
      refine ⟨resolveNh fuel m w stack n, List.mem_map_of_mem _ (List.mem_cons_self _ _), ?_⟩
      rw [hall _ (List.mem_map_of_mem _ (List.mem_cons_self _ _))]
      rfl
  rw [hnodrop, hany]
  rfl

/-- C7: a route whose best contribution's next hops all longest-prefix
match (non-connected) routes whose best action is DROP inherits DROP, and
likewise for TO_CPU, resolved at `MAX_ADMIN_DISTANCE`; in the static-route
scenario, `4.4.4.4/32 via 2.2.2.2` (with `2.2.2.2/32 → CPU`) resolves to
TO_CPU, `1.1.1.1/32 → NULL` resolves to DROP at `MAX_ADMIN_DISTANCE`, and
`3.3.3.3/32 via 1.1.1.1` resolves to DROP. -/
theorem resolveRoute_inherits_terminal_action :
    (∀ (m : NetworkToRouteMap) (w k : Nat) (r : RibRoute) (c : Nat)
        (be : RouteNextHopEntry),
      bestEntryOf r = some (c, be) → be.action = .nexthops →
      be.nexthops ≠ [] →
      (be.nexthops.all (nhInheritsAction m w [k] .drop) = true →
        resolveRoute m w k r = .fwd .drop kMaxAdminDistance []) ∧
      (be.nexthops.all (nhInheritsAction m w [k] .toCpu) = true →
        resolveRoute m w k r = .fwd .toCpu kMaxAdminDistance [])) ∧
    ((alookup (Cidr.key ⟨.v4 67372036, 32⟩)
        staticScenarioTable.v4NetworkToRoute).map
        (resolveRoute staticScenarioTable.v4NetworkToRoute 32
          (Cidr.key ⟨.v4 67372036, 32⟩)) =
      some (.fwd .toCpu kMaxAdminDistance []) ∧
      (alookup (Cidr.key ⟨.v4 16843009, 32⟩)
          staticScenarioTable.v4NetworkToRoute).map
          (resolveRoute staticScenarioTable.v4NetworkToRoute 32
            (Cidr.key ⟨.v4 16843009, 32⟩)) =
        some (.fwd .drop kMaxAdminDistance []) ∧
      (alookup (Cidr.key ⟨.v4 50529027, 32⟩)
          staticScenarioTable.v4NetworkToRoute).map
          (resolveRoute staticScenarioTable.v4NetworkToRoute 32
            (Cidr.key ⟨.v4 50529027, 32⟩)) =
        some (.fwd .drop kMaxAdminDistance [])) := by
  constructor
  · intro m w k r c be hbe hact hne
    constructor
    · intro hall
      unfold resolveRoute
      rw [hbe]
      simp only
      rw [hact]
      simp only
      rw [resolveNhList_all_drop w m w [k] be.nexthops hne ?hd]
      case hd =>
        intro nh hnh
        have hp := (List.all_eq_true.mp hall) nh hnh
        exact resolveNh_inherit_drop w m w [k] nh hp
    · intro hall
      unfold resolveRoute
      rw [hbe]
      simp only
      rw [hact]
      simp only
      rw [resolveNhList_all_toCpu w m w [k] be.nexthops hne ?hc]
      case hc =>
        intro nh hnh
        have hp := (List.all_eq_true.mp hall) nh hnh
        exact resolveNh_inherit_toCpu w m w [k] nh hp
  · refine ⟨?_, ?_, ?_⟩ <;> decide

/-- Witness for the general part of C7 at a concrete input: the scenario
route `4.4.4.4/32 via 2.2.2.2` satisfies the hypotheses with the TO_CPU
target `2.2.2.2/32`, and resolution returns TO_CPU. -/
theorem resolveRoute_inherits_witness :
    resolveRoute staticScenarioTable.v4NetworkToRoute 32
        (Cidr.key ⟨.v4 67372036, 32⟩)
        ⟨⟨.v4 67372036, 32⟩,
          [(kClientStaticRoute,
            ⟨.nexthops, kAdminStaticRoute, [⟨.v4 33686018, none⟩]⟩)]⟩ =
      .fwd .toCpu kMaxAdminDistance [] :=
  ((resolveRoute_inherits_terminal_action.1
      staticScenarioTable.v4NetworkToRoute 32
      (Cidr.key ⟨.v4 67372036, 32⟩)
      ⟨⟨.v4 67372036, 32⟩,
        [(kClientStaticRoute,
          ⟨.nexthops, kAdminStaticRoute, [⟨.v4 33686018, none⟩]⟩)]⟩
      kClientStaticRoute
      ⟨.nexthops, kAdminStaticRoute, [⟨.v4 33686018, none⟩]⟩
      (by decide) (by decide) (by decide)).2 (by decide))

theorem alookup_addToTree_ne {K : Nat} {p : Cidr} {c : Nat}
    {e : RouteNextHopEntry} {m : NetworkToRouteMap} (h : K ≠ p.key) :
    alookup K (addToTree p c e m) = alookup K m := by
  unfold addToTree
  cases hl : alookup p.key m with
  | none => exact alookup_ainsert_ne h _ m
  | some r => exact alookup_ainsert_ne h _ m

theorem asorted_addToTree {p : Cidr} {c : Nat} {e : RouteNextHopEntry}
    {m : NetworkToRouteMap} (hs : asorted m = true) :
    asorted (addToTree p c e m) = true := by
  unfold addToTree
  cases hl : alookup p.key m with
  | none => exact asorted_ainsert _ _ hs
  | some r => exact asorted_ainsert _ _ hs

theorem aerase_addToTree_comm {K : Nat} {p : Cidr} {c : Nat}
    {e : RouteNextHopEntry} {m : NetworkToRouteMap} (hne : K ≠ p.key)
    (hs : asorted m = true) :
    aerase K (addToTree p c e m) = addToTree p c e (aerase K m) := by
  unfold addToTree
  rw [alookup_aerase_ne (Ne.symm hne)]
  cases hl : alookup p.key m with
  | none =>
    simp only
    exact aerase_ainsert_comm hne _ hs
  | some r =>
    simp only
    exact aerase_ainsert_comm hne _ hs

theorem alookup_addListTree_ne {K : Nat} (c d : Nat) :
    ∀ (rs : List UnicastRoute) (m : NetworkToRouteMap),
      (∀ r ∈ rs, r.dest.key ≠ K) →
      alookup K (addListTree c d rs m) = alookup K m := by
  intro rs
  induction rs with
  | nil => intro m _; rfl
  | cons r rest ih =>
    intro m hne
    rw [addListTree]
    rw [ih _ (fun x hx => hne x (List.mem_cons_of_mem _ hx))]
    exact alookup_addToTree_ne
      (fun h => hne r (List.mem_cons_self _ _) h.symm)

theorem asorted_addListTree (c d : Nat) :
    ∀ (rs : List UnicastRoute) (m : NetworkToRouteMap),
      asorted m = true → asorted (addListTree c d rs m) = true := by
  intro rs
  induction rs with
  | nil => intro m hs; exact hs
  | cons r rest ih =>
    intro m hs
    rw [addListTree]
    exact ih _ (asorted_addToTree hs)

theorem aerase_addListTree_comm {K : Nat} (c d : Nat) :
    ∀ (rs : List UnicastRoute) (m : NetworkToRouteMap),
      asorted m = true →
      (∀ r ∈ rs, r.dest.key ≠ K) →
      aerase K (addListTree c d rs m) = addListTree c d rs (aerase K m) := by
  intro rs
  induction rs with
  | nil => intro m _ _; rfl
  | cons r rest ih =>
    intro m hs hne
    rw [addListTree, addListTree]
    rw [ih _ (asorted_addToTree hs)
      (fun x hx => hne x (List.mem_cons_of_mem _ hx))]
    rw [aerase_addToTree_comm
      (fun h => hne r (List.mem_cons_self _ _) h.symm) hs]

theorem tree_add_del_restore (c d : Nat) :
    ∀ (rs : List UnicastRoute) (m : NetworkToRouteMap),
      asorted m = true →
      (rs.map (fun r => r.dest.key)).Nodup →
      (∀ r ∈ rs, alookup r.dest.key m = none) →
      delListTree c (rs.map (fun r => r.dest)) (addListTree c d rs m) = m := by
  intro rs
  induction rs with
  | nil => intro m _ _ _; rfl
  | cons r rest ih =>
    intro m hs hnd habs
    rw [List.map_cons, List.nodup_cons] at hnd
    have hK : ∀ x ∈ rest, x.dest.key ≠ r.dest.key := by
      intro x hx heq
      exact hnd.1 (heq ▸ List.mem_map_of_mem _ hx)
    have habs_head : alookup r.dest.key m = none :=
      habs r (List.mem_cons_self _ _)
    have hm1 : addToTree r.dest c (RouteNextHopEntry.fromRoute r d) m =
        ainsert r.dest.key
          ⟨r.dest, [(c, RouteNextHopEntry.fromRoute r d)]⟩ m := by
      unfold addToTree
      rw [habs_head]
    rw [List.map_cons, addListTree, delListTree, hm1]
    have hlook : alookup r.dest.key
        (addListTree c d rest
          (ainsert r.dest.key
            ⟨r.dest, [(c, RouteNextHopEntry.fromRoute r d)]⟩ m)) =
        some ⟨r.dest, [(c, RouteNextHopEntry.fromRoute r d)]⟩ := by
      rw [alookup_addListTree_ne c d rest _ hK, alookup_ainsert_self]
    have hdel : (delFromTree r.dest c
        (addListTree c d rest
          (ainsert r.dest.key
            ⟨r.dest, [(c, RouteNextHopEntry.fromRoute r d)]⟩ m))).1 =
        addListTree c d rest m := by
      unfold delFromTree
      rw [hlook]
      simp only
      rw [aerase_addListTree_comm c d rest _
        (asorted_ainsert _ _ hs) hK]
      rw [aerase_ainsert_absent _ habs_head]
      simp [alookup, aerase]
    rw [hdel]
    exact ih m hs hnd.2 (fun x hx => habs x (List.mem_cons_of_mem _ hx))

theorem processAdds_table (c d : Nat) :
    ∀ (l : List UnicastRoute) (t : RouteTable) (s : UpdateStatistics),
      (processAdds c d l t s).1 =
        ⟨addListTree c d (l.filter (fun r => r.dest.ip.isV4))
            t.v4NetworkToRoute,
          addListTree c d (l.filter (fun r => !r.dest.ip.isV4))
            t.v6NetworkToRoute⟩ := by
  intro l
  induction l with
  | nil => intro t s; rfl
  | cons r rest ih =>
    intro t s
    cases hv : r.dest.ip.isV4 with
    | true =>
      simp only [processAdds, hv, RouteTable.addRoute, if_true]
      rw [ih]
      simp [List.filter_cons, hv, addListTree]
    | false =>
      simp only [processAdds, hv, RouteTable.addRoute, Bool.false_eq_true,
        if_false]
      rw [ih]
      simp [List.filter_cons, hv, addListTree]

theorem processDeletes_table (c : Nat) :
    ∀ (l : List Cidr) (t : RouteTable) (s : UpdateStatistics)
      (acc : List (Cidr × RouteNextHopEntry)),
      (processDeletes c l t s acc).1 =
        ⟨delListTree c (l.filter (fun p => p.ip.isV4)) t.v4NetworkToRoute,
          delListTree c (l.filter (fun p => !p.ip.isV4))
            t.v6NetworkToRoute⟩ := by
  intro l
  induction l with
  | nil => intro t s acc; rfl
  | cons p rest ih =>
    intro t s acc
    cases hv : p.ip.isV4 with
    | true =>
      rcases hfd : delFromTree p c t.v4NetworkToRoute with ⟨m', del⟩
      have hdr : t.delRoute p c = ({ t with v4NetworkToRoute := m' }, del) := by
        unfold RouteTable.delRoute
        rw [hv, hfd]
        simp
      simp only [processDeletes, hdr]
      cases del with
      | some e =>
        rw [ih]
        simp [List.filter_cons, hv, delListTree, hfd]
      | none =>
        rw [ih]
        simp [List.filter_cons, hv, delListTree, hfd]
    | false =>
      rcases hfd : delFromTree p c t.v6NetworkToRoute with ⟨m', del⟩
      have hdr : t.delRoute p c = ({ t with v6NetworkToRoute := m' }, del) := by
        unfold RouteTable.delRoute
        rw [hv, hfd]
        simp
      simp only [processDeletes, hdr]
      cases del with
      | some e =>
        rw [ih]
        simp [List.filter_cons, hv, delListTree, hfd]
      | none =>
        rw [ih]
        simp [List.filter_cons, hv, delListTree, hfd]

theorem filter_map_dest (q : IpAddr → Bool) :
    ∀ l : List UnicastRoute,
      (l.map (fun r => r.dest)).filter (fun p => q p.ip) =
        (l.filter (fun r => q r.dest.ip)).map (fun r => r.dest) := by
  intro l
  induction l with
  | nil => rfl
  | cons r rest ih =>
    cases hq : q r.dest.ip with
    | true => simp [List.filter_cons, hq, ih]
    | false => simp [List.filter_cons, hq, ih]

theorem updateImpl_no_deletes (cb : FibUpdateFunction) (rid c d : Nat)
    (toAdd : List UnicastRoute) (t : RouteTable) :
    updateImpl cb rid c d toAdd [] false t =
      ⟨(processAdds c d toAdd t UpdateStatistics.zero).1,
        (processAdds c d toAdd t UpdateStatistics.zero).2, [],
        [(processAdds c d toAdd t UpdateStatistics.zero).1],
        !cb rid (processAdds c d toAdd t UpdateStatistics.zero).1⟩ := rfl

theorem updateImpl_no_adds (cb : FibUpdateFunction) (rid c d : Nat)
    (toDelete : List Cidr) (t : RouteTable) :
    updateImpl cb rid c d [] toDelete false t =
      ⟨(processDeletes c toDelete t UpdateStatistics.zero []).1,
        (processDeletes c toDelete t UpdateStatistics.zero []).2.1,
        (processDeletes c toDelete t UpdateStatistics.zero []).2.2,
        [(processDeletes c toDelete t UpdateStatistics.zero []).1],
        !cb rid (processDeletes c toDelete t UpdateStatistics.zero []).1⟩ :=
  rfl

theorem filter_map_dest_v4 (l : List UnicastRoute) :
    (l.map (fun r => r.dest)).filter (fun p => p.ip.isV4) =
      (l.filter (fun r => r.dest.ip.isV4)).map (fun r => r.dest) :=
  filter_map_dest (fun ip => ip.isV4) l

theorem filter_map_dest_v6 (l : List UnicastRoute) :
    (l.map (fun r => r.dest)).filter (fun p => !p.ip.isV4) =
      (l.filter (fun r => !r.dest.ip.isV4)).map (fun r => r.dest) :=
  filter_map_dest (fun ip => !ip.isV4) l

theorem aheadLt_of_forall {ν : Type} {x : Nat} :
    ∀ {l : List (Nat × ν)}, (∀ p ∈ l, x < p.1) → aheadLt x l = true := by
  intro l
  cases l with
  | nil => intro _; rfl
  | cons h t =>
    intro hall
    rw [aheadLt, decide_eq_true_eq]
    exact hall h (List.mem_cons_self _ _)

theorem mem_of_mem_aerase {ν : Type} {k : Nat} {p : Nat × ν} :
    ∀ {m : List (Nat × ν)}, p ∈ aerase k m → p ∈ m := by
  intro m
  induction m with
  | nil => intro hp; cases hp
  | cons h t ih =>
    obtain ⟨a, b⟩ := h
    intro hp
    rw [aerase] at hp
    by_cases hka : k = a
    · simp only [hka, if_true] at hp
      exact List.mem_cons_of_mem _ hp
    · simp only [hka, if_false] at hp
      cases hp with
      | head => exact List.mem_cons_self _ _
      | tail _ hp' => exact List.mem_cons_of_mem _ (ih hp')

theorem asorted_aerase {ν : Type} (k : Nat) :
    ∀ {m : List (Nat × ν)}, asorted m = true →
      asorted (aerase k m) = true := by
  intro m
  induction m with
  | nil => intro _; rfl
  | cons h t ih =>
    obtain ⟨a, b⟩ := h
    intro hs
    obtain ⟨hhead, htail⟩ := asorted_cons_iff.mp hs
    rw [aerase]
    by_cases hka : k = a
    · simp only [hka, if_true]
      exact htail
    · simp only [hka, if_false]
      refine asorted_cons_iff.mpr ⟨?_, ih htail⟩
      exact aheadLt_of_forall (fun p hp =>
        lt_of_asorted_cons hs p (mem_of_mem_aerase hp))

theorem alookup_aerase_self {ν : Type} {k : Nat} :
    ∀ {m : List (Nat × ν)}, asorted m = true →
      alookup k (aerase k m) = none := by
  intro m
  induction m with
  | nil => intro _; rfl
  | cons h t ih =>
    obtain ⟨a, b⟩ := h
    intro hs
    obtain ⟨hhead, htail⟩ := asorted_cons_iff.mp hs
    rw [aerase]
    by_cases hka : k = a
    · simp only [hka, if_true]
      subst hka
      exact alookup_eq_none_of_aheadLt hhead htail
    · simp only [hka, if_false, alookup, ih htail]

/-- Key-sorted association lists are determined by their lookup function. -/
theorem asorted_ext {ν : Type} :
    ∀ {a b : List (Nat × ν)}, asorted a = true → asorted b = true →
      (∀ k, alookup k a = alookup k b) → a = b := by
  intro a
  induction a with
  | nil =>
    intro b _ hsb hl
    cases b with
    | nil => rfl
    | cons h t =>
      obtain ⟨kb, vb⟩ := h
      have hx := hl kb
      simp [alookup] at hx
  | cons h a' ih =>
    obtain ⟨ka, va⟩ := h
    intro b hsa hsb hl
    obtain ⟨hha, hta⟩ := asorted_cons_iff.mp hsa
    cases b with
    | nil =>
      have hx := hl ka
      simp [alookup] at hx
    | cons hb b' =>
      obtain ⟨kb, vb⟩ := hb
      obtain ⟨hhb, htb⟩ := asorted_cons_iff.mp hsb
      have hkk : ka = kb := by
        by_cases h1 : ka = kb
        · exact h1
        · rcases Nat.lt_or_ge ka kb with hlt | hge
          · have hx := hl ka
            have hnone : alookup ka ((kb, vb) :: b') = none := by
              rw [alookup, if_neg h1]
              exact alookup_eq_none_of_aheadLt
                (aheadLt_of_lt_head hlt hhb) htb
            rw [hnone] at hx
            simp [alookup] at hx
          · have hlt' : kb < ka := by omega
            have h2 : kb ≠ ka := fun hh => h1 hh.symm
            have hx := hl kb
            have hnone : alookup kb ((ka, va) :: a') = none := by
              rw [alookup, if_neg h2]
              exact alookup_eq_none_of_aheadLt
                (aheadLt_of_lt_head hlt' hha) hta
            rw [hnone] at hx
            simp [alookup] at hx
      subst hkk
      have hvv : va = vb := by
        have hx := hl ka
        simp [alookup] at hx
        exact hx
      subst hvv
      have htails : a' = b' := by
        refine ih hta htb ?_
        intro j
        by_cases hj : j = ka
        · subst hj
          rw [alookup_eq_none_of_aheadLt hha hta,
            alookup_eq_none_of_aheadLt hhb htb]
        · have hx := hl j
          simp only [alookup, hj, if_false] at hx
          exact hx
      rw [htails]

theorem ainsert_ainsert_comm {ν : Type} {k k' : Nat} (hne : k ≠ k')
    (v v' : ν) {m : List (Nat × ν)} (hs : asorted m = true) :
    ainsert k v (ainsert k' v' m) = ainsert k' v' (ainsert k v m) := by
  refine asorted_ext
    (asorted_ainsert _ _ (asorted_ainsert _ _ hs))
    (asorted_ainsert _ _ (asorted_ainsert _ _ hs)) ?_
  intro j
  by_cases hjk : j = k
  · subst hjk
    rw [alookup_ainsert_self, alookup_ainsert_ne hne, alookup_ainsert_self]
  · rw [alookup_ainsert_ne hjk]
    by_cases hjk' : j = k'
    · subst hjk'
      rw [alookup_ainsert_self, alookup_ainsert_self]
    · rw [alookup_ainsert_ne hjk', alookup_ainsert_ne hjk',
        alookup_ainsert_ne hjk]

theorem ainsert_ainsert_collapse {ν : Type} (k : Nat) (v v' : ν)
    {m : List (Nat × ν)} (hs : asorted m = true) :
    ainsert k v (ainsert k v' m) = ainsert k v m := by
  refine asorted_ext
    (asorted_ainsert _ _ (asorted_ainsert _ _ hs))
    (asorted_ainsert _ _ hs) ?_
  intro j
  by_cases hjk : j = k
  · subst hjk
    rw [alookup_ainsert_self, alookup_ainsert_self]
  · rw [alookup_ainsert_ne hjk, alookup_ainsert_ne hjk,
      alookup_ainsert_ne hjk]

theorem ainsert_aerase_inverse {ν : Type} {k : Nat} {v : ν}
    {m : List (Nat × ν)} (hs : asorted m = true)
    (hl : alookup k m = some v) :
    ainsert k v (aerase k m) = m := by
  refine asorted_ext
    (asorted_ainsert _ _ (asorted_aerase _ hs)) hs ?_
  intro j
  by_cases hjk : j = k
  · subst hjk
    rw [alookup_ainsert_self, hl]
  · rw [alookup_ainsert_ne hjk, alookup_aerase_ne hjk]

theorem aerase_nil_entries {ν : Type} {c : Nat} {v : ν} :
    ∀ {entries : List (Nat × ν)}, aerase c entries = [] →
      alookup c entries = some v → entries = [(c, v)] := by
  intro entries
  cases entries with
  | nil => intro _ hl; cases hl
  | cons h t =>
    obtain ⟨c0, v0⟩ := h
    intro he hl
    rw [aerase] at he
    by_cases hc : c = c0
    · subst hc
      simp only [if_pos rfl] at he
      subst he
      rw [alookup, if_pos rfl] at hl
      cases hl
      rfl
    · simp only [hc, if_false] at he
      cases he

theorem delFromTree_none {p : Cidr} {c : Nat} {m : NetworkToRouteMap}
    (h : (delFromTree p c m).2 = none) : (delFromTree p c m).1 = m := by
  rcases hfd : delFromTree p c m with ⟨m1, del⟩
  have hdel : del = none := by rw [hfd] at h; exact h
  subst hdel
  show m1 = m
  unfold delFromTree at hfd
  split at hfd
  · injection hfd with h1 h2
    exact h1.symm
  · split at hfd
    · injection hfd with h1 h2
      exact h1.symm
    · simp only at hfd
      split at hfd
      · injection hfd with h1 h2
        cases h2
      · injection hfd with h1 h2
        cases h2

theorem asorted_delFromTree {p : Cidr} {c : Nat} {m : NetworkToRouteMap}
    (hs : asorted m = true) : asorted (delFromTree p c m).1 = true := by
  unfold delFromTree
  cases hl : alookup p.key m with
  | none => exact hs
  | some r =>
    simp only
    cases hc : alookup c r.entries with
    | none => exact hs
    | some e =>
      simp only
      by_cases hemp : (aerase c r.entries).isEmpty = true
      · rw [if_pos hemp]
        exact asorted_aerase _ hs
      · rw [if_neg hemp]
        exact asorted_ainsert _ _ hs

theorem ainsert_addToTree_comm {K : Nat} {R : RibRoute} {p : Cidr} {c : Nat}
    {e : RouteNextHopEntry} {m : NetworkToRouteMap} (hne : K ≠ p.key)
    (hs : asorted m = true) :
    ainsert K R (addToTree p c e m) = addToTree p c e (ainsert K R m) := by
  unfold addToTree
  rw [alookup_ainsert_ne (fun h => hne h.symm)]
  cases hl : alookup p.key m with
  | none =>
    simp only
    exact ainsert_ainsert_comm hne _ _ hs
  | some r =>
    simp only
    exact ainsert_ainsert_comm hne _ _ hs

/-- A delete at one network commutes with an add at another network:
the processing order of non-overlapping operations does not matter. -/
theorem delFromTree_addToTree_swap {q p : Cidr} {c : Nat}
    {e : RouteNextHopEntry} {m : NetworkToRouteMap}
    (hne : q.key ≠ p.key) (hs : asorted m = true) :
    delFromTree q c (addToTree p c e m) =
      (addToTree p c e (delFromTree q c m).1, (delFromTree q c m).2) := by
  have hlq : alookup q.key (addToTree p c e m) = alookup q.key m :=
    alookup_addToTree_ne hne
  unfold delFromTree
  rw [hlq]
  cases hl : alookup q.key m with
  | none => rfl
  | some r =>
    simp only
    cases hc : alookup c r.entries with
    | none => rfl
    | some e'' =>
      simp only
      by_cases hemp : (aerase c r.entries).isEmpty = true
      · rw [if_pos hemp, if_pos hemp]
        simp only
        rw [aerase_addToTree_comm hne hs]
      · rw [if_neg hemp, if_neg hemp]
        simp only
        rw [ainsert_addToTree_comm hne hs]

/-- Deletes of networks other than `p` commute with an add at `p`, and the
records they produce are unchanged. -/
theorem delRecTree_addToTree_comm {p : Cidr} {c : Nat}
    {e : RouteNextHopEntry} :
    ∀ (ps : List Cidr) (m : NetworkToRouteMap),
      asorted m = true →
      (∀ q ∈ ps, q.key ≠ p.key) →
      delRecTree c ps (addToTree p c e m) =
        (addToTree p c e (delRecTree c ps m).1, (delRecTree c ps m).2) := by
  intro ps
  induction ps with
  | nil => intro m _ _; rfl
  | cons q rest ih =>
    intro m hs hne
    rcases hd : delFromTree q c m with ⟨m1, del⟩
    have hswap := delFromTree_addToTree_swap
      (hne q (List.mem_cons_self _ _)) hs (p := p) (q := q) (c := c)
      (e := e) (m := m)
    rw [hd] at hswap
    simp only at hswap
    rw [delRecTree, hswap]
    simp only
    have hs1 : asorted m1 = true := by
      have := asorted_delFromTree (p := q) (c := c) hs
      rw [hd] at this
      exact this
    rw [ih m1 hs1 (fun x hx => hne x (List.mem_cons_of_mem _ hx))]
    rw [delRecTree, hd]
    simp only
    cases del with
    | some e0 => rfl
    | none => rfl

/-- Re-adding the contribution a single delete removed restores the map,
provided the route was stored under its own network, its contribution map
is key-sorted, and the re-added entry equals the removed one. -/
theorem delFromTree_single_restore {p : Cidr} {c : Nat}
    {m m1 : NetworkToRouteMap} {e : RouteNextHopEntry}
    (hs : asorted m = true)
    (hnet : ∀ r, alookup p.key m = some r → r.network = p)
    (hesort : ∀ r, alookup p.key m = some r → asorted r.entries = true)
    (hdel : delFromTree p c m = (m1, some e)) :
    addToTree p c e m1 = m := by
  unfold delFromTree at hdel
  cases hl : alookup p.key m with
  | none => rw [hl] at hdel; cases hdel
  | some r =>
    rw [hl] at hdel
    simp only at hdel
    cases hc : alookup c r.entries with
    | none => rw [hc] at hdel; cases hdel
    | some e0 =>
      rw [hc] at hdel
      simp only at hdel
      have hrnet := hnet r hl
      have hrsort := hesort r hl
      by_cases hemp : (aerase c r.entries).isEmpty = true
      · rw [if_pos hemp] at hdel
        have hm1' : m1 = aerase p.key m := (congrArg Prod.fst hdel).symm
        have hee : e = e0 := by
          have h2 : ((aerase p.key m, some e0) :
              NetworkToRouteMap × Option RouteNextHopEntry).2 =
              (m1, some e).2 := congrArg Prod.snd hdel
          simp only at h2
          injection h2 with h3
          exact h3.symm
        rw [hm1', hee]
        have hentries : r.entries = [(c, e0)] :=
          aerase_nil_entries (List.isEmpty_iff.mp hemp) hc
        unfold addToTree
        rw [alookup_aerase_self hs]
        have hroute : (⟨p, [(c, e0)]⟩ : RibRoute) = r := by
          rw [← hrnet, ← hentries]
        rw [hroute]
        exact ainsert_aerase_inverse hs hl
      · rw [if_neg hemp] at hdel
        have hm1' : m1 =
            ainsert p.key ⟨r.network, aerase c r.entries⟩ m :=
          (congrArg Prod.fst hdel).symm
        have hee : e = e0 := by
          have h2 : ((ainsert p.key ⟨r.network, aerase c r.entries⟩ m,
              some e0) :
              NetworkToRouteMap × Option RouteNextHopEntry).2 =
              (m1, some e).2 := congrArg Prod.snd hdel
          simp only at h2
          injection h2 with h3
          exact h3.symm
        rw [hm1', hee]
        unfold addToTree
        rw [alookup_ainsert_self]
        simp only
        rw [ainsert_aerase_inverse hrsort hc]
        have hroute : (⟨r.network, r.entries⟩ : RibRoute) = r := rfl
        rw [hroute]
        rw [ainsert_ainsert_collapse _ _ _ hs]
        exact ainsert_existing hs hl

theorem delFromTree_some_spec {p : Cidr} {c : Nat} {m : NetworkToRouteMap}
    {e : RouteNextHopEntry} (h : (delFromTree p c m).2 = some e) :
    ∃ r, alookup p.key m = some r ∧ alookup c r.entries = some e := by
  rcases hfd : delFromTree p c m with ⟨m1, del⟩
  have hdel : del = some e := by rw [hfd] at h; exact h
  subst hdel
  unfold delFromTree at hfd
  split at hfd
  · injection hfd with h1 h2
    cases h2
  · rename_i r heqr
    split at hfd
    · injection hfd with h1 h2
      cases h2
    · rename_i e0 heqe
      simp only at hfd
      split at hfd
      · injection hfd with h1 h2
        injection h2 with h3
        exact ⟨r, heqr, h3 ▸ heqe⟩
      · injection hfd with h1 h2
        injection h2 with h3
        exact ⟨r, heqr, h3 ▸ heqe⟩

/-- Re-adding, at the call's admin distance, exactly the records a delete
batch removed restores the map the batch ran on: the deleted contributions
carried that admin distance, routes are stored under their own networks
with sorted contribution maps, and the batch names distinct networks. -/
theorem tree_del_restore (c d : Nat) :
    ∀ (ps : List Cidr) (m : NetworkToRouteMap),
      asorted m = true →
      (ps.map Cidr.key).Nodup →
      (∀ p ∈ ps, ∀ r, alookup p.key m = some r → r.network = p) →
      (∀ p ∈ ps, ∀ r, alookup p.key m = some r →
        asorted r.entries = true) →
      (∀ p ∈ ps, ∀ r e, alookup p.key m = some r →
        alookup c r.entries = some e → e.adminDistance = d) →
      addRecsTree c d (delRecTree c ps m).2 (delRecTree c ps m).1 = m := by
  intro ps
  induction ps with
  | nil => intro m _ _ _ _ _; rfl
  | cons p rest ih =>
    intro m hs hnd hnet hesort hdist
    rw [List.map_cons, List.nodup_cons] at hnd
    have hK : ∀ q ∈ rest, q.key ≠ p.key := by
      intro q hq heq
      exact hnd.1 (heq ▸ List.mem_map_of_mem _ hq)
    rcases hd : delFromTree p c m with ⟨m1, del⟩
    have hs1 : asorted m1 = true := by
      have hx := asorted_delFromTree (p := p) (c := c) hs
      rw [hd] at hx
      exact hx
    have hih := ih m hs hnd.2
      (fun q hq => hnet q (List.mem_cons_of_mem _ hq))
      (fun q hq => hesort q (List.mem_cons_of_mem _ hq))
      (fun q hq => hdist q (List.mem_cons_of_mem _ hq))
    cases del with
    | none =>
      have hm1 : m1 = m := by
        have h2 : (delFromTree p c m).2 = none := by rw [hd]
        have h1 := delFromTree_none h2
        rw [hd] at h1
        exact h1
      simp only [delRecTree, hd, hm1]
      exact hih
    | some e =>
      have hadd : addToTree p c e m1 = m :=
        delFromTree_single_restore hs
          (hnet p (List.mem_cons_self _ _))
          (hesort p (List.mem_cons_self _ _)) hd
      obtain ⟨r, hlr, hce⟩ := delFromTree_some_spec
        (show (delFromTree p c m).2 = some e by rw [hd])
      have hdd : e.adminDistance = d :=
        hdist p (List.mem_cons_self _ _) r e hlr hce
      have he' : (⟨e.action, d, e.nexthops⟩ : RouteNextHopEntry) = e := by
        cases e with
        | mk ea ead enh =>
          simp only at hdd
          rw [hdd]
      have hcomm := delRecTree_addToTree_comm
        (p := p) (c := c) (e := e) rest m1 hs1 hK
      rw [hadd] at hcomm
      have h1 : (delRecTree c rest m).1 =
          addToTree p c e (delRecTree c rest m1).1 := by rw [hcomm]
      have h2 : (delRecTree c rest m).2 = (delRecTree c rest m1).2 := by
        rw [hcomm]
      simp only [delRecTree, hd]
      rw [addRecsTree, he', ← h1, ← h2]
      exact hih

theorem delListTree_eq_delRecTree (c : Nat) :
    ∀ (ps : List Cidr) (m : NetworkToRouteMap),
      delListTree c ps m = (delRecTree c ps m).1 := by
  intro ps
  induction ps with
  | nil => intro m; rfl
  | cons p rest ih =>
    intro m
    rcases hd : delFromTree p c m with ⟨m1, del⟩
    rw [delListTree, delRecTree, hd]
    simp only
    cases del with
    | some e => exact ih m1
    | none => exact ih m1

theorem processDeletes_deleted (c : Nat) :
    ∀ (ps : List Cidr) (t : RouteTable) (s : UpdateStatistics)
      (acc : List (Cidr × RouteNextHopEntry)),
      ((processDeletes c ps t s acc).2.2).filter (fun pe => pe.1.ip.isV4) =
          acc.filter (fun pe => pe.1.ip.isV4) ++
            (delRecTree c (ps.filter (fun p => p.ip.isV4))
              t.v4NetworkToRoute).2 ∧
        ((processDeletes c ps t s acc).2.2).filter
            (fun pe => !pe.1.ip.isV4) =
          acc.filter (fun pe => !pe.1.ip.isV4) ++
            (delRecTree c (ps.filter (fun p => !p.ip.isV4))
              t.v6NetworkToRoute).2 := by
  intro ps
  induction ps with
  | nil =>
    intro t s acc
    simp [processDeletes, delRecTree]
  | cons p rest ih =>
    intro t s acc
    cases hv : p.ip.isV4 with
    | true =>
      rcases hfd : delFromTree p c t.v4NetworkToRoute with ⟨m1, del⟩
      have hdr : t.delRoute p c = ({ t with v4NetworkToRoute := m1 }, del) := by
        unfold RouteTable.delRoute
        rw [hv, hfd]
        simp
      simp only [processDeletes, hdr]
      cases del with
      | some e =>
        obtain ⟨ih4, ih6⟩ := ih { t with v4NetworkToRoute := m1 }
          (if p.ip.isV4 = true then
            { s with v4RoutesDeleted := s.v4RoutesDeleted + 1 }
           else { s with v6RoutesDeleted := s.v6RoutesDeleted + 1 })
          (acc ++ [(p, e)])
        constructor
        · rw [ih4]
          simp only [List.filter_append, List.filter_cons, hv,
            List.filter_nil, List.filter_cons, List.append_assoc]
          simp only [List.filter_cons, hv, if_true]
          rw [delRecTree, hfd]
          simp
        · rw [ih6]
          simp only [List.filter_append, List.filter_cons, hv,
            List.filter_nil, List.append_assoc]
          simp [List.filter_cons, hv]
      | none =>
        obtain ⟨ih4, ih6⟩ := ih { t with v4NetworkToRoute := m1 }
          (if p.ip.isV4 = true then
            { s with v4RoutesDeleted := s.v4RoutesDeleted + 1 }
           else { s with v6RoutesDeleted := s.v6RoutesDeleted + 1 }) acc
        constructor
        · rw [ih4]
          simp only [List.filter_cons, hv, if_true]
          rw [delRecTree, hfd]
        · rw [ih6]
          simp [List.filter_cons, hv]
    | false =>
      rcases hfd : delFromTree p c t.v6NetworkToRoute with ⟨m1, del⟩
      have hdr : t.delRoute p c = ({ t with v6NetworkToRoute := m1 }, del) := by
        unfold RouteTable.delRoute
        rw [hv, hfd]
        simp
      simp only [processDeletes, hdr]
      cases del with
      | some e =>
        obtain ⟨ih4, ih6⟩ := ih { t with v6NetworkToRoute := m1 }
          (if p.ip.isV4 = true then
            { s with v4RoutesDeleted := s.v4RoutesDeleted + 1 }
           else { s with v6RoutesDeleted := s.v6RoutesDeleted + 1 })
          (acc ++ [(p, e)])
        constructor
        · rw [ih4]
          simp only [List.filter_append, List.filter_cons, hv,
            List.filter_nil, List.append_assoc]
          simp [List.filter_cons, hv]
        · rw [ih6]
          simp only [List.filter_append, List.filter_cons, hv,
            List.filter_nil, List.append_assoc]
          simp only [List.filter_cons, hv, Bool.not_false, if_true]
          rw [delRecTree, hfd]
          simp
      | none =>
        obtain ⟨ih4, ih6⟩ := ih { t with v6NetworkToRoute := m1 }
          (if p.ip.isV4 = true then
            { s with v4RoutesDeleted := s.v4RoutesDeleted + 1 }
           else { s with v6RoutesDeleted := s.v6RoutesDeleted + 1 }) acc
        constructor
        · rw [ih4]
          simp [List.filter_cons, hv]
        · rw [ih6]
          simp only [List.filter_cons, hv, Bool.not_false, if_true]
          rw [delRecTree, hfd]

theorem filter_map_toUnicast (q : IpAddr → Bool) :
    ∀ recs : List (Cidr × RouteNextHopEntry),
      (recs.map (fun pe => toUnicastRoute pe.1 pe.2)).filter
          (fun r => q r.dest.ip) =
        (recs.filter (fun pe => q pe.1.ip)).map
          (fun pe => toUnicastRoute pe.1 pe.2) := by
  intro recs
  induction recs with
  | nil => rfl
  | cons pe rest ih =>
    obtain ⟨p, e⟩ := pe
    simp only [toUnicastRoute] at ih ⊢
    cases hq : q p.ip with
    | true => simp [List.filter_cons, hq, ih]
    | false => simp [List.filter_cons, hq, ih]

theorem addListTree_map_toUnicast (c d : Nat) :
    ∀ (recs : List (Cidr × RouteNextHopEntry)) (m : NetworkToRouteMap),
      addListTree c d (recs.map (fun pe => toUnicastRoute pe.1 pe.2)) m =
        addRecsTree c d recs m := by
  intro recs
  induction recs with
  | nil => intro m; rfl
  | cons pe rest ih =>
    obtain ⟨p, e⟩ := pe
    intro m
    rw [List.map_cons, addListTree, addRecsTree]
    exact ih _

theorem alookup_mem {ν : Type} {k : Nat} {v : ν} :
    ∀ {l : List (Nat × ν)}, alookup k l = some v → (k, v) ∈ l := by
  intro l
  induction l with
  | nil => intro h; cases h
  | cons p rest ih =>
    obtain ⟨k0, v0⟩ := p
    intro h
    rw [alookup] at h
    by_cases hk : k = k0
    · subst hk
      simp only [if_pos rfl] at h
      cases h
      exact List.mem_cons_self _ _
    · simp only [hk, if_false] at h
      exact List.mem_cons_of_mem _ (ih h)

theorem alookup_eq_none_of_forall_ne {ν : Type} {k : Nat} :
    ∀ {l : List (Nat × ν)}, (∀ p ∈ l, k ≠ p.1) → alookup k l = none := by
  intro l
  induction l with
  | nil => intro _; rfl
  | cons p rest ih =>
    obtain ⟨k0, v0⟩ := p
    intro h
    rw [alookup]
    have hk : k ≠ k0 := h (k0, v0) (List.mem_cons_self _ _)
    simp only [hk, if_false]
    exact ih (fun q hq => h q (List.mem_cons_of_mem _ hq))

theorem ainsert_prepend {ν : Type} {k : Nat} {v : ν} :
    ∀ {m : List (Nat × ν)}, aheadLt k m = true →
      ainsert k v m = (k, v) :: m := by
  intro m
  cases m with
  | nil => intro _; rfl
  | cons p rest =>
    obtain ⟨k0, v0⟩ := p
    intro h
    rw [aheadLt, decide_eq_true_eq] at h
    rw [ainsert]
    simp [h]

theorem addToTree_cons_head {p : Cidr} {c : Nat} {e : RouteNextHopEntry}
    {k : Nat} {r : RibRoute} {m : NetworkToRouteMap} (h : k < p.key) :
    addToTree p c e ((k, r) :: m) = (k, r) :: addToTree p c e m := by
  have hne : p.key ≠ k := by omega
  have h1 : ¬ p.key < k := by omega
  unfold addToTree
  rw [alookup]
  simp only [hne, if_false]
  cases hl : alookup p.key m with
  | none =>
    simp only
    rw [ainsert]
    simp only [h1, if_false, hne, if_false]
  | some r0 =>
    simp only
    rw [ainsert]
    simp only [h1, if_false, hne, if_false]

theorem addRecsTree_cons_head (c d : Nat) {k : Nat} {r : RibRoute} :
    ∀ (recs : List (Cidr × RouteNextHopEntry)) (m : NetworkToRouteMap),
      (∀ pe ∈ recs, k < pe.1.key) →
      addRecsTree c d recs ((k, r) :: m) =
        (k, r) :: addRecsTree c d recs m := by
  intro recs
  induction recs with
  | nil => intro m _; rfl
  | cons pe rest ih =>
    obtain ⟨p, e⟩ := pe
    intro m hall
    rw [addRecsTree, addRecsTree]
    rw [addToTree_cons_head (hall (p, e) (List.mem_cons_self _ _))]
    exact ih _ (fun q hq => hall q (List.mem_cons_of_mem _ hq))

/-- The network-map key encoding is injective within a family once mask
lengths stay below the 256 slot width. -/
theorem cidr_key_inj {p q : Cidr} (hp : p.len < 256) (hq : q.len < 256)
    (haf : p.ip.isV4 = q.ip.isV4) (hk : p.key = q.key) : p = q := by
  unfold Cidr.key at hk
  obtain ⟨pip, plen⟩ := p
  obtain ⟨qip, qlen⟩ := q
  simp only at hk hp hq haf
  have hlen : plen = qlen := by omega
  have hval : pip.val = qip.val := by omega
  subst hlen
  cases pip with
  | v4 a =>
    cases qip with
    | v4 b =>
      simp only [IpAddr.val] at hval
      rw [hval]
    | v6 b => simp [IpAddr.isV4] at haf
  | v6 a =>
    cases qip with
    | v4 b => simp [IpAddr.isV4] at haf
    | v6 b =>
      simp only [IpAddr.val] at hval
      rw [hval]

theorem asorted_keys_nodup {ν : Type} :
    ∀ {m : List (Nat × ν)}, asorted m = true → (m.map Prod.fst).Nodup := by
  intro m
  induction m with
  | nil => intro _; exact List.nodup_nil
  | cons p rest ih =>
    obtain ⟨k, v⟩ := p
    intro hs
    rw [List.map_cons, List.nodup_cons]
    refine ⟨?_, ih (asorted_cons_iff.mp hs).2⟩
    intro hmem
    obtain ⟨q, hq, hqk⟩ := List.mem_map.mp hmem
    have := lt_of_asorted_cons hs q hq
    omega

theorem delFromTree_absent {p : Cidr} {c : Nat} {m : NetworkToRouteMap}
    (h : alookup p.key m = none) : delFromTree p c m = (m, none) := by
  unfold delFromTree
  rw [h]

/-- A delete naming a (network, client) pair the table does not hold is a
no-op that reports nothing deleted. -/
theorem delRoute_missing (t : RouteTable) (p : Cidr) (c : Nat)
    (h : t.clientLookup p c = none) : t.delRoute p c = (t, none) := by
  unfold RouteTable.clientLookup RouteTable.findRoute at h
  unfold RouteTable.delRoute delFromTree
  cases hv : p.ip.isV4 with
  | true =>
    simp only [hv, if_true] at h ⊢
    cases hr : alookup p.key t.v4NetworkToRoute with
    | none => simp [hr]
    | some r =>
      rw [hr] at h
      simp only at h
      simp [hr, h]
  | false =>
    simp only [hv, Bool.false_eq_true, if_false] at h ⊢
    cases hr : alookup p.key t.v6NetworkToRoute with
    | none => simp [hr]
    | some r =>
      rw [hr] at h
      simp only at h
      simp [hr, h]

/-- A delete batch in which every entry misses leaves the table and the
deleted-routes accumulator untouched. -/
theorem processDeletes_all_missing (c : Nat) :
    ∀ (ps : List Cidr) (t : RouteTable) (s : UpdateStatistics)
      (acc : List (Cidr × RouteNextHopEntry)),
      (∀ p ∈ ps, t.clientLookup p c = none) →
      (processDeletes c ps t s acc).1 = t ∧
        (processDeletes c ps t s acc).2.2 = acc := by
  intro ps
  induction ps with
  | nil => intro t s acc _; exact ⟨rfl, rfl⟩
  | cons p rest ih =>
    intro t s acc hall
    have hdel := delRoute_missing t p c (hall p (List.mem_cons_self _ _))
    simp only [processDeletes, hdel]
    exact ih t _ acc (fun q hq => hall q (List.mem_cons_of_mem _ hq))

theorem filter_all_true {α : Type} (p : α → Bool) :
    ∀ l : List α, (∀ a ∈ l, p a = true) → l.filter p = l := by
  intro l
  induction l with
  | nil => intro _; rfl
  | cons a rest ih =>
    intro h
    rw [List.filter_cons, if_pos (h a (List.mem_cons_self _ _))]
    rw [ih (fun x hx => h x (List.mem_cons_of_mem _ hx))]

theorem filter_all_false {α : Type} (p : α → Bool) :
    ∀ l : List α, (∀ a ∈ l, p a = false) → l.filter p = [] := by
  intro l
  induction l with
  | nil => intro _; rfl
  | cons a rest ih =>
    intro h
    rw [List.filter_cons,
      if_neg (by rw [h a (List.mem_cons_self _ _)]; exact Bool.false_ne_true)]
    exact ih (fun x hx => h x (List.mem_cons_of_mem _ hx))

/-- Lookup-level consequences of the per-map rollback invariants. -/
theorem treeRollbackWf_spec {c d : Nat} {af : Bool} {m : NetworkToRouteMap}
    (h : treeRollbackWf c d af m = true) :
    asorted m = true ∧
      ∀ k r, alookup k m = some r →
        r.network.key = k ∧ r.network.ip.isV4 = af ∧ r.network.len < 256 ∧
          asorted r.entries = true ∧
          ∀ e, alookup c r.entries = some e → e.adminDistance = d := by
  unfold treeRollbackWf at h
  rw [Bool.and_eq_true] at h
  refine ⟨h.1, ?_⟩
  intro k r hl
  have hmem : (k, r) ∈ m := alookup_mem hl
  have hall := List.all_eq_true.mp h.2 _ hmem
  simp only [Bool.and_eq_true, beq_iff_eq, decide_eq_true_eq] at hall
  obtain ⟨⟨⟨⟨h1, h2⟩, h3⟩, h4⟩, h5⟩ := hall
  refine ⟨h1.symm, h2, h3, h4, ?_⟩
  intro e he
  rw [he] at h5
  simp only [beq_iff_eq] at h5
  exact h5

/-- Member-level consequences of the per-map rollback invariants. -/
theorem treeRollbackWf_mem {c d : Nat} {af : Bool} {m : NetworkToRouteMap}
    (h : treeRollbackWf c d af m = true) :
    ∀ kr ∈ m, kr.1 = kr.2.network.key ∧ kr.2.network.ip.isV4 = af := by
  unfold treeRollbackWf at h
  rw [Bool.and_eq_true] at h
  intro kr hkr
  have hall := List.all_eq_true.mp h.2 _ hkr
  simp only [Bool.and_eq_true, beq_iff_eq, decide_eq_true_eq] at hall
  exact ⟨hall.1.1.1.1, hall.1.1.1.2⟩

theorem treeRollbackWf_cons {c d : Nat} {af : Bool} {k0 : Nat} {r0 : RibRoute}
    {rest : NetworkToRouteMap}
    (h : treeRollbackWf c d af ((k0, r0) :: rest) = true) :
    treeRollbackWf c d af rest = true ∧
      k0 = r0.network.key ∧ asorted r0.entries = true ∧
      ∀ e, alookup c r0.entries = some e → e.adminDistance = d := by
  unfold treeRollbackWf at h ⊢
  rw [Bool.and_eq_true] at h
  obtain ⟨hsort, hall⟩ := h
  obtain ⟨hhead, htail⟩ := asorted_cons_iff.mp hsort
  rw [List.all_cons, Bool.and_eq_true] at hall
  obtain ⟨hhd, htl⟩ := hall
  simp only [Bool.and_eq_true, beq_iff_eq, decide_eq_true_eq] at hhd
  obtain ⟨⟨⟨⟨h1, h2⟩, h3⟩, h4⟩, h5⟩ := hhd
  refine ⟨by rw [Bool.and_eq_true]; exact ⟨htail, htl⟩, h1, h4, ?_⟩
  intro e he
  rw [he] at h5
  simp only [beq_iff_eq] at h5
  exact h5

/-- `updateImpl` componentwise: the table, statistics and deleted-route
records of a run, and the published table and error flag they induce. -/
theorem updateImpl_eq (cb : FibUpdateFunction) (rid c d : Nat)
    (toAdd : List UnicastRoute) (toDelete : List Cidr) (reset : Bool)
    (t : RouteTable) :
    updateImpl cb rid c d toAdd toDelete reset t =
      ⟨updateTargetTable c d toAdd toDelete reset t,
        updateTargetStats c d toAdd toDelete reset t,
        updateDeletedRoutes c d toAdd toDelete reset t,
        [updateTargetTable c d toAdd toDelete reset t],
        !cb rid (updateTargetTable c d toAdd toDelete reset t)⟩ := rfl

theorem removeAll_spec (c : Nat) (t : RouteTable) :
    RouteTable.removeAllRoutesForClient c t =
      (⟨(removeClientFromTree c t.v4NetworkToRoute).1,
          (removeClientFromTree c t.v6NetworkToRoute).1⟩,
        (removeClientFromTree c t.v4NetworkToRoute).2 ++
          (removeClientFromTree c t.v6NetworkToRoute).2) := rfl

theorem removeClientFromTree_mem (c : Nat) :
    ∀ (m : NetworkToRouteMap), ∀ q ∈ (removeClientFromTree c m).1,
      ∃ r0, (q.1, r0) ∈ m := by
  intro m
  induction m with
  | nil => intro q hq; cases hq
  | cons kr rest ih =>
    obtain ⟨k0, r0⟩ := kr
    intro q hq
    rcases hrc : removeClientFromTree c rest with ⟨m', del⟩
    simp only [removeClientFromTree, hrc] at hq
    have ih' : ∀ x ∈ m', ∃ r1, (x.1, r1) ∈ rest := by
      intro x hx
      exact ih x (by rw [hrc]; exact hx)
    cases hc : alookup c r0.entries with
    | none =>
      rw [hc] at hq
      simp only at hq
      cases hq with
      | head => exact ⟨r0, List.mem_cons_self _ _⟩
      | tail _ hq' =>
        obtain ⟨r1, hr1⟩ := ih' q hq'
        exact ⟨r1, List.mem_cons_of_mem _ hr1⟩
    | some e =>
      rw [hc] at hq
      simp only at hq
      by_cases hemp : (aerase c r0.entries).isEmpty = true
      · rw [if_pos hemp] at hq
        simp only at hq
        obtain ⟨r1, hr1⟩ := ih' q hq
        exact ⟨r1, List.mem_cons_of_mem _ hr1⟩
      · rw [if_neg hemp] at hq
        simp only at hq
        cases hq with
        | head => exact ⟨r0, List.mem_cons_self _ _⟩
        | tail _ hq' =>
          obtain ⟨r1, hr1⟩ := ih' q hq'
          exact ⟨r1, List.mem_cons_of_mem _ hr1⟩

theorem asorted_removeClientFromTree (c : Nat) :
    ∀ (m : NetworkToRouteMap), asorted m = true →
      asorted (removeClientFromTree c m).1 = true := by
  intro m
  induction m with
  | nil => intro _; rfl
  | cons kr rest ih =>
    obtain ⟨k0, r0⟩ := kr
    intro hs
    obtain ⟨hhead, htail⟩ := asorted_cons_iff.mp hs
    rcases hrc : removeClientFromTree c rest with ⟨m', del⟩
    have ihs : asorted m' = true := by
      have := ih htail
      rw [hrc] at this
      exact this
    have hall : ∀ q ∈ m', k0 < q.1 := by
      intro q hq
      obtain ⟨r1, hr1⟩ :=
        removeClientFromTree_mem c rest q (by rw [hrc]; exact hq)
      exact lt_of_asorted_cons hs (q.1, r1) hr1
    have hhead' : aheadLt k0 m' = true := aheadLt_of_forall hall
    simp only [removeClientFromTree, hrc]
    cases hc : alookup c r0.entries with
    | none =>
      simp only
      exact asorted_cons_iff.mpr ⟨hhead', ihs⟩
    | some e =>
      simp only
      by_cases hemp : (aerase c r0.entries).isEmpty = true
      · rw [if_pos hemp]
        exact ihs
      · rw [if_neg hemp]
        simp only
        exact asorted_cons_iff.mpr ⟨hhead', ihs⟩

/-- What lookup sees after a client reset: routes whose only contribution
was the client's disappear, routes with other contributions lose the
client's entry, the rest are untouched. -/
theorem removeClientFromTree_lookup (c : Nat) :
    ∀ (m : NetworkToRouteMap), asorted m = true → ∀ (k : Nat),
      alookup k (removeClientFromTree c m).1 =
        match alookup k m with
        | none => none
        | some r =>
          match alookup c r.entries with
          | none => some r
          | some _ =>
            if (aerase c r.entries).isEmpty then none
            else some ⟨r.network, aerase c r.entries⟩ := by
  intro m
  induction m with
  | nil => intro _ k; rfl
  | cons kr rest ih =>
    obtain ⟨k0, r0⟩ := kr
    intro hs k
    obtain ⟨hhead, htail⟩ := asorted_cons_iff.mp hs
    rcases hrc : removeClientFromTree c rest with ⟨m', del⟩
    have ihk : ∀ j, alookup j m' =
        match alookup j rest with
        | none => none
        | some r =>
          match alookup c r.entries with
          | none => some r
          | some _ =>
            if (aerase c r.entries).isEmpty then none
            else some ⟨r.network, aerase c r.entries⟩ := by
      intro j
      have := ih htail j
      rw [hrc] at this
      exact this
    simp only [removeClientFromTree, hrc]
    by_cases hk : k = k0
    · subst hk
      have hlk : alookup k rest = none :=
        alookup_eq_none_of_aheadLt hhead htail
      cases hc : alookup c r0.entries with
      | none => simp [alookup, hc]
      | some e =>
        by_cases hemp : (aerase c r0.entries).isEmpty = true
        · simp only [alookup, if_pos rfl, hc, hemp, if_true]
          rw [ihk k, hlk]
        · simp [alookup, hc, hemp]
    · cases hc : alookup c r0.entries with
      | none =>
        simp only [alookup, hk, if_false]
        exact ihk k
      | some e =>
        by_cases hemp : (aerase c r0.entries).isEmpty = true
        · simp only [alookup, hk, if_false, hc, hemp, if_true]
          exact ihk k
        · simp only [hemp, if_false, alookup, hk]
          exact ihk k

/-- No route left by a client reset still carries the client's entry. -/
theorem removeClientFromTree_no_client (c : Nat) {m : NetworkToRouteMap}
    (hs : asorted m = true)
    (hes : ∀ k r, alookup k m = some r → asorted r.entries = true) :
    ∀ k r, alookup k (removeClientFromTree c m).1 = some r →
      alookup c r.entries = none := by
  intro k r hkr
  rw [removeClientFromTree_lookup c m hs k] at hkr
  cases hl : alookup k m with
  | none => rw [hl] at hkr; cases hkr
  | some r1 =>
    rw [hl] at hkr
    simp only at hkr
    cases hc : alookup c r1.entries with
    | none =>
      rw [hc] at hkr
      simp only at hkr
      injection hkr with h1
      rw [← h1]
      exact hc
    | some e1 =>
      rw [hc] at hkr
      simp only at hkr
      by_cases hemp : (aerase c r1.entries).isEmpty = true
      · rw [if_pos hemp] at hkr
        cases hkr
      · rw [if_neg hemp] at hkr
        injection hkr with h1
        rw [← h1]
        exact alookup_aerase_self (hes k r1 hl)

theorem removeClientFromTree_rec_mem (c : Nat) :
    ∀ (m : NetworkToRouteMap), ∀ pe ∈ (removeClientFromTree c m).2,
      ∃ kr ∈ m, pe.1 = kr.2.network ∧
        alookup c kr.2.entries = some pe.2 := by
  intro m
  induction m with
  | nil => intro pe hpe; cases hpe
  | cons kr rest ih =>
    obtain ⟨k0, r0⟩ := kr
    intro pe hpe
    rcases hrc : removeClientFromTree c rest with ⟨m', del⟩
    simp only [removeClientFromTree, hrc] at hpe
    have ih' : ∀ x ∈ del, ∃ kr1 ∈ rest, x.1 = kr1.2.network ∧
        alookup c kr1.2.entries = some x.2 := by
      intro x hx
      exact ih x (by rw [hrc]; exact hx)
    cases hc : alookup c r0.entries with
    | none =>
      rw [hc] at hpe
      simp only at hpe
      obtain ⟨kr1, hkr1, h1, h2⟩ := ih' pe hpe
      exact ⟨kr1, List.mem_cons_of_mem _ hkr1, h1, h2⟩
    | some e =>
      rw [hc] at hpe
      simp only at hpe
      by_cases hemp : (aerase c r0.entries).isEmpty = true
      · rw [if_pos hemp] at hpe
        simp only at hpe
        cases hpe with
        | head => exact ⟨(k0, r0), List.mem_cons_self _ _, rfl, hc⟩
        | tail _ hpe' =>
          obtain ⟨kr1, hkr1, h1, h2⟩ := ih' pe hpe'
          exact ⟨kr1, List.mem_cons_of_mem _ hkr1, h1, h2⟩
      · rw [if_neg hemp] at hpe
        simp only at hpe
        cases hpe with
        | head => exact ⟨(k0, r0), List.mem_cons_self _ _, rfl, hc⟩
        | tail _ hpe' =>
          obtain ⟨kr1, hkr1, h1, h2⟩ := ih' pe hpe'
          exact ⟨kr1, List.mem_cons_of_mem _ hkr1, h1, h2⟩

/-- Re-adding, at the calling client's admin distance, exactly the records
a client reset removed restores the map the reset ran on, under the
rollback invariants. -/
theorem removeClient_restore (c d : Nat) {af : Bool} :
    ∀ (m : NetworkToRouteMap), treeRollbackWf c d af m = true →
      addRecsTree c d (removeClientFromTree c m).2
        (removeClientFromTree c m).1 = m := by
  intro m
  induction m with
  | nil => intro _; rfl
  | cons kr rest ih =>
    obtain ⟨k0, r0⟩ := kr
    intro hwf
    obtain ⟨hwfrest, hknet, hesort, hdist⟩ := treeRollbackWf_cons hwf
    have hsort : asorted ((k0, r0) :: rest) = true := (treeRollbackWf_spec hwf).1
    rcases hrc : removeClientFromTree c rest with ⟨m', del⟩
    have ihr : addRecsTree c d del m' = rest := by
      have := ih hwfrest
      rw [hrc] at this
      exact this
    have hrecgt : ∀ pe ∈ del, k0 < pe.1.key := by
      intro pe hpe
      obtain ⟨kr1, hkr1, hpe1, _⟩ :=
        removeClientFromTree_rec_mem c rest pe (by rw [hrc]; exact hpe)
      have hk1 := (treeRollbackWf_mem hwfrest kr1 hkr1).1
      have hlt := lt_of_asorted_cons hsort kr1 hkr1
      rw [hpe1, ← hk1]
      exact hlt
    have hm'gt : ∀ q ∈ m', k0 < q.1 := by
      intro q hq
      obtain ⟨r1, hr1⟩ :=
        removeClientFromTree_mem c rest q (by rw [hrc]; exact hq)
      exact lt_of_asorted_cons hsort (q.1, r1) hr1
    cases hc : alookup c r0.entries with
    | none =>
      simp only [removeClientFromTree, hrc, hc]
      rw [addRecsTree_cons_head c d del m' hrecgt, ihr]
    | some e0 =>
      have hd0 : e0.adminDistance = d := hdist e0 hc
      have hee : (⟨e0.action, d, e0.nexthops⟩ : RouteNextHopEntry) = e0 := by
        cases e0
        simp only at hd0 ⊢
        rw [hd0]
      by_cases hemp : (aerase c r0.entries).isEmpty = true
      · simp only [removeClientFromTree, hrc, hc, if_pos hemp]
        rw [addRecsTree, hee]
        have hlm' : alookup r0.network.key m' = none := by
          rw [← hknet]
          exact alookup_eq_none_of_forall_ne
            (fun q hq => Nat.ne_of_lt (hm'gt q hq))
        have hentries : r0.entries = [(c, e0)] :=
          aerase_nil_entries (List.isEmpty_iff.mp hemp) hc
        have haddm : addToTree r0.network c e0 m' = (k0, r0) :: m' := by
          unfold addToTree
          rw [hlm']
          have hhd : aheadLt r0.network.key m' = true := by
            rw [← hknet]
            exact aheadLt_of_forall hm'gt
          rw [ainsert_prepend hhd, ← hknet]
          have hroute : (⟨r0.network, [(c, e0)]⟩ : RibRoute) = r0 := by
            rw [← hentries]
          rw [hroute]
        rw [haddm]
        rw [addRecsTree_cons_head c d del m' hrecgt, ihr]
      · simp only [removeClientFromTree, hrc, hc, if_neg hemp]
        rw [addRecsTree, hee]
        have haddm : addToTree r0.network c e0
            ((k0, ⟨r0.network, aerase c r0.entries⟩) :: m') =
            (k0, r0) :: m' := by
          unfold addToTree
          rw [← hknet, alookup, if_pos rfl]
          show ainsert k0
              ⟨r0.network, ainsert c e0 (aerase c r0.entries)⟩
              ((k0, (⟨r0.network, aerase c r0.entries⟩ : RibRoute)) :: m') =
            (k0, r0) :: m'
          rw [ainsert_aerase_inverse hesort hc]
          have hroute : (⟨r0.network, r0.entries⟩ : RibRoute) = r0 := rfl
          rw [hroute, ainsert]
          simp [Nat.lt_irrefl]
        rw [haddm]
        rw [addRecsTree_cons_head c d del m' hrecgt, ihr]

/-- The route the add loop leaves for a batch of distinct fresh networks:
a fresh single-contribution route for each. -/
theorem alookup_addListTree_fresh (c d : Nat) :
    ∀ (rs : List UnicastRoute) (m : NetworkToRouteMap),
      (rs.map (fun r => r.dest.key)).Nodup →
      (∀ r ∈ rs, alookup r.dest.key m = none) →
      ∀ r ∈ rs, alookup r.dest.key (addListTree c d rs m) =
        some ⟨r.dest, [(c, RouteNextHopEntry.fromRoute r d)]⟩ := by
  intro rs
  induction rs with
  | nil => intro m _ _ r hr; cases hr
  | cons r0 rest ih =>
    intro m hnd habs r hr
    rw [List.map_cons, List.nodup_cons] at hnd
    rw [addListTree]
    cases hr with
    | head =>
      have hneK : ∀ x ∈ rest, x.dest.key ≠ r0.dest.key := by
        intro x hx heq
        exact hnd.1 (heq ▸ List.mem_map_of_mem _ hx)
      rw [alookup_addListTree_ne c d rest _ hneK]
      unfold addToTree
      rw [habs r0 (List.mem_cons_self _ _)]
      exact alookup_ainsert_self _ _ _
    | tail _ hr' =>
      refine ih (addToTree r0.dest c (RouteNextHopEntry.fromRoute r0 d) m)
        hnd.2 ?_ r hr'
      intro x hx
      have hne : x.dest.key ≠ r0.dest.key := by
        intro heq
        exact hnd.1 (heq ▸ List.mem_map_of_mem _ hx)
      rw [alookup_addToTree_ne hne]
      exact habs x (List.mem_cons_of_mem _ hx)

/-- A client reset undoes a batch of fresh distinct adds by that client on
a map that carries no entry of the client. -/
theorem removeClient_addListTree (c d : Nat)
    (rs : List UnicastRoute) (X : NetworkToRouteMap)
    (hsX : asorted X = true)
    (hnoc : ∀ k r, alookup k X = some r → alookup c r.entries = none)
    (hnd : (rs.map (fun r => r.dest.key)).Nodup)
    (habs : ∀ r ∈ rs, alookup r.dest.key X = none) :
    (removeClientFromTree c (addListTree c d rs X)).1 = X := by
  have hsadd : asorted (addListTree c d rs X) = true :=
    asorted_addListTree c d rs X hsX
  refine asorted_ext (asorted_removeClientFromTree c _ hsadd) hsX ?_
  intro k
  rw [removeClientFromTree_lookup c _ hsadd k]
  by_cases hk : ∃ r ∈ rs, r.dest.key = k
  · obtain ⟨r, hr, hrk⟩ := hk
    subst hrk
    rw [alookup_addListTree_fresh c d rs X hnd habs r hr]
    simp only [alookup, if_pos rfl, aerase]
    rw [habs r hr]
    simp [List.isEmpty]
  · push_neg at hk
    rw [alookup_addListTree_ne c d rs X (fun r hr => hk r hr)]
    cases hlX : alookup k X with
    | none => rfl
    | some r =>
      simp only [hnoc k r hlX]

theorem filter_map_toUnicast_v4 (recs : List (Cidr × RouteNextHopEntry)) :
    (recs.map (fun pe => toUnicastRoute pe.1 pe.2)).filter
        (fun r => r.dest.ip.isV4) =
      (recs.filter (fun pe => pe.1.ip.isV4)).map
        (fun pe => toUnicastRoute pe.1 pe.2) :=
  filter_map_toUnicast (fun ip => ip.isV4) recs

theorem filter_map_toUnicast_v6 (recs : List (Cidr × RouteNextHopEntry)) :
    (recs.map (fun pe => toUnicastRoute pe.1 pe.2)).filter
        (fun r => !r.dest.ip.isV4) =
      (recs.filter (fun pe => !pe.1.ip.isV4)).map
        (fun pe => toUnicastRoute pe.1 pe.2) :=
  filter_map_toUnicast (fun ip => !ip.isV4) recs

/-- C1 as amended: for every update on a configured VRF — adds, deletes,
with or without a client reset — whose FIB callback rejects the updated
tables but accepts the pre-update tables, provided the VRF's table
satisfies the rollback invariants for the calling client (`rollbackWf`:
each route stored in its family's map under its own network's encoding,
mask lengths below the slot width, key-sorted contribution maps, and the
client's stored contributions carried at the call's admin distance — the
distance `RouteNextHopEntry::from` re-applies on the rollback re-add),
every added network is new to the table and the added networks are
distinct, and the deleted networks are distinct, within the encoding
bound, and disjoint from the added ones: the call re-raises
`FbossHwUpdateError`, the VRF map afterwards equals the map before the
call (the rollback re-added every route the update deleted — explicit
deletes and reset-removed routes alike — and deleted every network the
update added), the callback was re-invoked with the restored pre-update
tables, and repeating the identical update with a callback that accepts
the updated tables succeeds. -/
theorem update_hw_failure_rolls_back
    (cb : FibUpdateFunction) (rid c d : Nat) (toAdd : List UnicastRoute)
    (toDelete : List Cidr) (reset : Bool) (rib : RouterIDToRouteTable)
    (t : RouteTable)
    (hrib : asorted rib = true)
    (hfind : alookup rid rib = some t)
    (hwf : t.rollbackWf c d = true)
    (hnd4 : ((toAdd.filter (fun r => r.dest.ip.isV4)).map
      (fun r => r.dest.key)).Nodup)
    (hnd6 : ((toAdd.filter (fun r => !r.dest.ip.isV4)).map
      (fun r => r.dest.key)).Nodup)
    (hfresh : ∀ r ∈ toAdd, t.findRoute r.dest = none)
    (hdnd4 : ((toDelete.filter (fun p => p.ip.isV4)).map Cidr.key).Nodup)
    (hdnd6 : ((toDelete.filter (fun p => !p.ip.isV4)).map Cidr.key).Nodup)
    (hlen : ∀ p ∈ toDelete, p.len < 256)
    (hdisj : ∀ p ∈ toDelete, ∀ r ∈ toAdd,
      p.ip.isV4 = r.dest.ip.isV4 → p.key ≠ r.dest.key)
    (hfail : cb rid (updateTargetTable c d toAdd toDelete reset t) = false)
    (hok : cb rid t = true) :
    update cb rid c d toAdd toDelete reset rib =
      ⟨rib, .hwUpdateError,
        [(rid, updateTargetTable c d toAdd toDelete reset t), (rid, t)]⟩ ∧
      ∀ cb₂ : FibUpdateFunction,
        cb₂ rid (updateTargetTable c d toAdd toDelete reset t) = true →
        update cb₂ rid c d toAdd toDelete reset rib =
          ⟨ainsert rid (updateTargetTable c d toAdd toDelete reset t) rib,
            .ok (updateTargetStats c d toAdd toDelete reset t),
            [(rid, updateTargetTable c d toAdd toDelete reset t)]⟩ := by
  unfold RouteTable.rollbackWf at hwf
  rw [Bool.and_eq_true] at hwf
  obtain ⟨hwf4, hwf6⟩ := hwf
  have hs4 : asorted t.v4NetworkToRoute = true := (treeRollbackWf_spec hwf4).1
  have hs6 : asorted t.v6NetworkToRoute = true := (treeRollbackWf_spec hwf6).1
  have hspec4 := (treeRollbackWf_spec hwf4).2
  have hspec6 := (treeRollbackWf_spec hwf6).2
  have habs4 : ∀ r ∈ toAdd.filter (fun r => r.dest.ip.isV4),
      alookup r.dest.key t.v4NetworkToRoute = none := by
    intro r hr
    have hmem := List.mem_of_mem_filter hr
    have hv4 := List.of_mem_filter hr
    have hf := hfresh r hmem
    unfold RouteTable.findRoute at hf
    simp only [hv4, if_true] at hf
    exact hf
  have habs6 : ∀ r ∈ toAdd.filter (fun r => !r.dest.ip.isV4),
      alookup r.dest.key t.v6NetworkToRoute = none := by
    intro r hr
    have hmem := List.mem_of_mem_filter hr
    have hv6 := List.of_mem_filter hr
    rw [Bool.not_eq_true'] at hv6
    have hf := hfresh r hmem
    unfold RouteTable.findRoute at hf
    simp only [hv6, Bool.false_eq_true, if_false] at hf
    exact hf
  have hne4 : ∀ p ∈ toDelete.filter (fun p => p.ip.isV4),
      ∀ x ∈ toAdd.filter (fun r => r.dest.ip.isV4),
        x.dest.key ≠ p.key := by
    intro p hp x hx heq
    have hpv := List.of_mem_filter hp
    have hxv := List.of_mem_filter hx
    exact hdisj p (List.mem_of_mem_filter hp) x (List.mem_of_mem_filter hx)
      (by rw [hpv, hxv]) heq.symm
  have hne6 : ∀ p ∈ toDelete.filter (fun p => !p.ip.isV4),
      ∀ x ∈ toAdd.filter (fun r => !r.dest.ip.isV4),
        x.dest.key ≠ p.key := by
    intro p hp x hx heq
    have hpv := List.of_mem_filter hp
    have hxv := List.of_mem_filter hx
    rw [Bool.not_eq_true'] at hpv hxv
    exact hdisj p (List.mem_of_mem_filter hp) x (List.mem_of_mem_filter hx)
      (by rw [hpv, hxv]) heq.symm
  have hT' : updateTargetTable c d
      ((updateDeletedRoutes c d toAdd toDelete reset t).map
        (fun pe => toUnicastRoute pe.1 pe.2))
      (toAdd.map (fun r => r.dest)) reset
      (updateTargetTable c d toAdd toDelete reset t) = t := by
    cases reset with
    | false =>
      have hT2 : updateTargetTable c d toAdd toDelete false t =
          ⟨(delRecTree c (toDelete.filter (fun p => p.ip.isV4))
              (addListTree c d (toAdd.filter (fun r => r.dest.ip.isV4))
                t.v4NetworkToRoute)).1,
            (delRecTree c (toDelete.filter (fun p => !p.ip.isV4))
              (addListTree c d (toAdd.filter (fun r => !r.dest.ip.isV4))
                t.v6NetworkToRoute)).1⟩ := by
        have h0 : updateTargetTable c d toAdd toDelete false t =
            (processDeletes c toDelete
              (processAdds c d toAdd t UpdateStatistics.zero).1
              (processAdds c d toAdd t UpdateStatistics.zero).2 []).1 := rfl
        rw [h0, processDeletes_table, processAdds_table]
        simp only
        rw [delListTree_eq_delRecTree, delListTree_eq_delRecTree]
      have hDR4 : (updateDeletedRoutes c d toAdd toDelete false t).filter
          (fun pe => pe.1.ip.isV4) =
          (delRecTree c (toDelete.filter (fun p => p.ip.isV4))
            (addListTree c d (toAdd.filter (fun r => r.dest.ip.isV4))
              t.v4NetworkToRoute)).2 := by
        have h0 : updateDeletedRoutes c d toAdd toDelete false t =
            (processDeletes c toDelete
              (processAdds c d toAdd t UpdateStatistics.zero).1
              (processAdds c d toAdd t UpdateStatistics.zero).2 []).2.2 := rfl
        rw [h0]
        rw [(processDeletes_deleted c toDelete
          (processAdds c d toAdd t UpdateStatistics.zero).1
          (processAdds c d toAdd t UpdateStatistics.zero).2 []).1]
        rw [processAdds_table]
        simp only [List.filter_nil, List.nil_append]
      have hDR6 : (updateDeletedRoutes c d toAdd toDelete false t).filter
          (fun pe => !pe.1.ip.isV4) =
          (delRecTree c (toDelete.filter (fun p => !p.ip.isV4))
            (addListTree c d (toAdd.filter (fun r => !r.dest.ip.isV4))
              t.v6NetworkToRoute)).2 := by
        have h0 : updateDeletedRoutes c d toAdd toDelete false t =
            (processDeletes c toDelete
              (processAdds c d toAdd t UpdateStatistics.zero).1
              (processAdds c d toAdd t UpdateStatistics.zero).2 []).2.2 := rfl
        rw [h0]
        rw [(processDeletes_deleted c toDelete
          (processAdds c d toAdd t UpdateStatistics.zero).1
          (processAdds c d toAdd t UpdateStatistics.zero).2 []).2]
        rw [processAdds_table]
        simp only [List.filter_nil, List.nil_append]
      have hlook4 : ∀ p ∈ toDelete.filter (fun p => p.ip.isV4), ∀ r,
          alookup p.key
            (addListTree c d (toAdd.filter (fun r => r.dest.ip.isV4))
              t.v4NetworkToRoute) = some r →
          alookup p.key t.v4NetworkToRoute = some r := by
        intro p hp r hlr
        rw [alookup_addListTree_ne c d _ _ (hne4 p hp)] at hlr
        exact hlr
      have hlook6 : ∀ p ∈ toDelete.filter (fun p => !p.ip.isV4), ∀ r,
          alookup p.key
            (addListTree c d (toAdd.filter (fun r => !r.dest.ip.isV4))
              t.v6NetworkToRoute) = some r →
          alookup p.key t.v6NetworkToRoute = some r := by
        intro p hp r hlr
        rw [alookup_addListTree_ne c d _ _ (hne6 p hp)] at hlr
        exact hlr
      have hrest4 := tree_del_restore c d
        (toDelete.filter (fun p => p.ip.isV4))
        (addListTree c d (toAdd.filter (fun r => r.dest.ip.isV4))
          t.v4NetworkToRoute)
        (asorted_addListTree c d _ _ hs4) hdnd4
        (by
          intro p hp r hlr
          have h1 := hspec4 p.key r (hlook4 p hp r hlr)
          have hpv := List.of_mem_filter hp
          exact cidr_key_inj h1.2.2.1 (hlen p (List.mem_of_mem_filter hp))
            (by rw [h1.2.1, hpv]) h1.1)
        (by
          intro p hp r hlr
          exact (hspec4 p.key r (hlook4 p hp r hlr)).2.2.2.1)
        (by
          intro p hp r e hlr hce
          exact (hspec4 p.key r (hlook4 p hp r hlr)).2.2.2.2 e hce)
      have hrest6 := tree_del_restore c d
        (toDelete.filter (fun p => !p.ip.isV4))
        (addListTree c d (toAdd.filter (fun r => !r.dest.ip.isV4))
          t.v6NetworkToRoute)
        (asorted_addListTree c d _ _ hs6) hdnd6
        (by
          intro p hp r hlr
          have h1 := hspec6 p.key r (hlook6 p hp r hlr)
          have hpv := List.of_mem_filter hp
          rw [Bool.not_eq_true'] at hpv
          exact cidr_key_inj h1.2.2.1 (hlen p (List.mem_of_mem_filter hp))
            (by rw [h1.2.1, hpv]) h1.1)
        (by
          intro p hp r hlr
          exact (hspec6 p.key r (hlook6 p hp r hlr)).2.2.2.1)
        (by
          intro p hp r e hlr hce
          exact (hspec6 p.key r (hlook6 p hp r hlr)).2.2.2.2 e hce)
      have h0T : updateTargetTable c d
          ((updateDeletedRoutes c d toAdd toDelete false t).map
            (fun pe => toUnicastRoute pe.1 pe.2))
          (toAdd.map (fun r => r.dest)) false
          (updateTargetTable c d toAdd toDelete false t) =
          (processDeletes c (toAdd.map (fun r => r.dest))
            (processAdds c d
              ((updateDeletedRoutes c d toAdd toDelete false t).map
                (fun pe => toUnicastRoute pe.1 pe.2))
              (updateTargetTable c d toAdd toDelete false t)
              UpdateStatistics.zero).1
            (processAdds c d
              ((updateDeletedRoutes c d toAdd toDelete false t).map
                (fun pe => toUnicastRoute pe.1 pe.2))
              (updateTargetTable c d toAdd toDelete false t)
              UpdateStatistics.zero).2 []).1 := rfl
      rw [h0T, processDeletes_table, processAdds_table]
      simp only
      rw [filter_map_dest_v4, filter_map_dest_v6,
        filter_map_toUnicast_v4, filter_map_toUnicast_v6]
      rw [hDR4, hDR6, hT2]
      simp only
      rw [addListTree_map_toUnicast, addListTree_map_toUnicast]
      rw [hrest4, hrest6]
      rw [tree_add_del_restore c d _ _ hs4 hnd4 habs4,
        tree_add_del_restore c d _ _ hs6 hnd6 habs6]
    | true =>
      have hrp : resetPair c true t =
          (⟨(removeClientFromTree c t.v4NetworkToRoute).1,
              (removeClientFromTree c t.v6NetworkToRoute).1⟩,
            (removeClientFromTree c t.v4NetworkToRoute).2 ++
              (removeClientFromTree c t.v6NetworkToRoute).2) := rfl
      have hsTR4 : asorted (removeClientFromTree c t.v4NetworkToRoute).1 =
          true := asorted_removeClientFromTree c _ hs4
      have hsTR6 : asorted (removeClientFromTree c t.v6NetworkToRoute).1 =
          true := asorted_removeClientFromTree c _ hs6
      have hnoc4 : ∀ k r,
          alookup k (removeClientFromTree c t.v4NetworkToRoute).1 = some r →
          alookup c r.entries = none :=
        removeClientFromTree_no_client c hs4
          (fun k r hl => (hspec4 k r hl).2.2.2.1)
      have hnoc6 : ∀ k r,
          alookup k (removeClientFromTree c t.v6NetworkToRoute).1 = some r →
          alookup c r.entries = none :=
        removeClientFromTree_no_client c hs6
          (fun k r hl => (hspec6 k r hl).2.2.2.1)
      have hfreshTR4 : ∀ r ∈ toAdd.filter (fun r => r.dest.ip.isV4),
          alookup r.dest.key (removeClientFromTree c t.v4NetworkToRoute).1 =
            none := by
        intro r hr
        rw [removeClientFromTree_lookup c _ hs4, habs4 r hr]
      have hfreshTR6 : ∀ r ∈ toAdd.filter (fun r => !r.dest.ip.isV4),
          alookup r.dest.key (removeClientFromTree c t.v6NetworkToRoute).1 =
            none := by
        intro r hr
        rw [removeClientFromTree_lookup c _ hs6, habs6 r hr]
      have haf4 : ∀ pe ∈ (removeClientFromTree c t.v4NetworkToRoute).2,
          pe.1.ip.isV4 = true := by
        intro pe hpe
        obtain ⟨kr, hkr, hpe1, _⟩ :=
          removeClientFromTree_rec_mem c _ pe hpe
        rw [hpe1]
        exact (treeRollbackWf_mem hwf4 kr hkr).2
      have haf6 : ∀ pe ∈ (removeClientFromTree c t.v6NetworkToRoute).2,
          pe.1.ip.isV4 = false := by
        intro pe hpe
        obtain ⟨kr, hkr, hpe1, _⟩ :=
          removeClientFromTree_rec_mem c _ pe hpe
        rw [hpe1]
        exact (treeRollbackWf_mem hwf6 kr hkr).2
      have hTA : (processAdds c d toAdd
          (⟨(removeClientFromTree c t.v4NetworkToRoute).1,
            (removeClientFromTree c t.v6NetworkToRoute).1⟩ : RouteTable)
          UpdateStatistics.zero).1 =
          ⟨addListTree c d (toAdd.filter (fun r => r.dest.ip.isV4))
              (removeClientFromTree c t.v4NetworkToRoute).1,
            addListTree c d (toAdd.filter (fun r => !r.dest.ip.isV4))
              (removeClientFromTree c t.v6NetworkToRoute).1⟩ := by
        rw [processAdds_table]
      have hmiss : ∀ p ∈ toDelete,
          RouteTable.clientLookup
            ⟨addListTree c d (toAdd.filter (fun r => r.dest.ip.isV4))
                (removeClientFromTree c t.v4NetworkToRoute).1,
              addListTree c d (toAdd.filter (fun r => !r.dest.ip.isV4))
                (removeClientFromTree c t.v6NetworkToRoute).1⟩ p c =
            none := by
        intro p hp
        unfold RouteTable.clientLookup RouteTable.findRoute
        cases hv : p.ip.isV4 with
        | true =>
          simp only [hv, if_true]
          rw [alookup_addListTree_ne c d _ _
            (hne4 p (List.mem_filter.mpr ⟨hp, hv⟩))]
          cases hl : alookup p.key
              (removeClientFromTree c t.v4NetworkToRoute).1 with
          | none => rfl
          | some r => exact hnoc4 p.key r hl
        | false =>
          simp only [hv, Bool.false_eq_true, if_false]
          rw [alookup_addListTree_ne c d _ _
            (hne6 p (List.mem_filter.mpr ⟨hp, by rw [hv]; rfl⟩))]
          cases hl : alookup p.key
              (removeClientFromTree c t.v6NetworkToRoute).1 with
          | none => rfl
          | some r => exact hnoc6 p.key r hl
      have hT2 : updateTargetTable c d toAdd toDelete true t =
          ⟨addListTree c d (toAdd.filter (fun r => r.dest.ip.isV4))
              (removeClientFromTree c t.v4NetworkToRoute).1,
            addListTree c d (toAdd.filter (fun r => !r.dest.ip.isV4))
              (removeClientFromTree c t.v6NetworkToRoute).1⟩ := by
        unfold updateTargetTable
        rw [hrp]
        simp only
        rw [hTA]
        exact (processDeletes_all_missing c toDelete _ _ _ hmiss).1
      have hDR : updateDeletedRoutes c d toAdd toDelete true t =
          (removeClientFromTree c t.v4NetworkToRoute).2 ++
            (removeClientFromTree c t.v6NetworkToRoute).2 := by
        unfold updateDeletedRoutes
        rw [hrp]
        simp only
        rw [hTA]
        exact (processDeletes_all_missing c toDelete _ _ _ hmiss).2
      have hfilt4 : ((removeClientFromTree c t.v4NetworkToRoute).2 ++
          (removeClientFromTree c t.v6NetworkToRoute).2).filter
          (fun pe => pe.1.ip.isV4) =
          (removeClientFromTree c t.v4NetworkToRoute).2 := by
        rw [List.filter_append, filter_all_true _ _ haf4,
          filter_all_false _ _ haf6]
        exact List.append_nil _
      have hfilt6 : ((removeClientFromTree c t.v4NetworkToRoute).2 ++
          (removeClientFromTree c t.v6NetworkToRoute).2).filter
          (fun pe => !pe.1.ip.isV4) =
          (removeClientFromTree c t.v6NetworkToRoute).2 := by
        rw [List.filter_append,
          filter_all_false _ _ (fun pe hpe => by rw [haf4 pe hpe]; rfl),
          filter_all_true _ _ (fun pe hpe => by rw [haf6 pe hpe]; rfl)]
        exact List.nil_append _
      have hadds : (processAdds c d
          (((removeClientFromTree c t.v4NetworkToRoute).2 ++
            (removeClientFromTree c t.v6NetworkToRoute).2).map
            (fun pe => toUnicastRoute pe.1 pe.2))
          (⟨(removeClientFromTree c t.v4NetworkToRoute).1,
            (removeClientFromTree c t.v6NetworkToRoute).1⟩ : RouteTable)
          UpdateStatistics.zero).1 = t := by
        rw [processAdds_table]
        simp only
        rw [filter_map_toUnicast_v4, filter_map_toUnicast_v6]
        rw [hfilt4, hfilt6]
        rw [addListTree_map_toUnicast, addListTree_map_toUnicast]
        rw [removeClient_restore c d _ hwf4, removeClient_restore c d _ hwf6]
      rw [hDR, hT2]
      have hrp2 : resetPair c true
          (⟨addListTree c d (toAdd.filter (fun r => r.dest.ip.isV4))
              (removeClientFromTree c t.v4NetworkToRoute).1,
            addListTree c d (toAdd.filter (fun r => !r.dest.ip.isV4))
              (removeClientFromTree c t.v6NetworkToRoute).1⟩ : RouteTable) =
          (⟨(removeClientFromTree c
              (addListTree c d (toAdd.filter (fun r => r.dest.ip.isV4))
                (removeClientFromTree c t.v4NetworkToRoute).1)).1,
            (removeClientFromTree c
              (addListTree c d (toAdd.filter (fun r => !r.dest.ip.isV4))
                (removeClientFromTree c t.v6NetworkToRoute).1)).1⟩,
           (removeClientFromTree c
              (addListTree c d (toAdd.filter (fun r => r.dest.ip.isV4))
                (removeClientFromTree c t.v4NetworkToRoute).1)).2 ++
             (removeClientFromTree c
              (addListTree c d (toAdd.filter (fun r => !r.dest.ip.isV4))
                (removeClientFromTree c t.v6NetworkToRoute).1)).2) := rfl
      unfold updateTargetTable
      rw [hrp2]
      simp only
      rw [removeClient_addListTree c d _ _ hsTR4 hnoc4 hnd4 hfreshTR4,
        removeClient_addListTree c d _ _ hsTR6 hnoc6 hnd6 hfreshTR6]
      rw [hadds]
      have hmiss2 : ∀ p ∈ toAdd.map (fun r => r.dest),
          t.clientLookup p c = none := by
        intro p hp
        obtain ⟨r, hr, hrp'⟩ := List.mem_map.mp hp
        subst hrp'
        unfold RouteTable.clientLookup
        rw [hfresh r hr]
      exact (processDeletes_all_missing c _ t _ _ hmiss2).1
  constructor
  · unfold update
    rw [hfind]
    simp only
    rw [updateImpl_eq]
    simp only [hfail, Bool.not_false, if_true]
    rw [updateImpl_eq]
    rw [hT']
    simp only [hok, Bool.not_true, Bool.false_eq_true, if_false]
    rw [ainsert_existing hrib hfind]
    simp
  · intro cb₂ hcb₂
    unfold update
    rw [hfind]
    simp only
    rw [updateImpl_eq]
    simp only [hcb₂, Bool.not_true, Bool.false_eq_true, if_false]
    simp

/-- C1 counterexample: client 10 already contributes to network 5/32; its
update re-adds the same network with different next hops and the FIB
callback rejects the post-add table.  The call does re-raise
`FbossHwUpdateError`, but the rollback deletes the network outright —
`addRoute` overwrote the old contribution without recording it, and the
rollback's inverse delta only deletes the networks of `toAdd` — so the RIB
after the call differs from the RIB before it: the claim's state-restoring
guarantee fails for overwriting adds. -/
theorem update_rollback_counterexample :
    (update cexCb 0 10 7 [cexAdd] [] false cexRib).result = .hwUpdateError ∧
      (update cexCb 0 10 7 [cexAdd] [] false cexRib).rib ≠ cexRib := by
  decide

/-- Witness for the amended C1 at a concrete input exercising the delete
re-add path: the table holds client 1's route 7/32 at admin distance 1
(`1824 = 7 * 256 + 32`); the update adds the fresh network 9/32 and
deletes 7/32, the callback accepts only the pre-update table, the call
raises `FbossHwUpdateError` and leaves the RIB unchanged — the rollback
re-added the deleted 7/32 and removed the added 9/32 — republishing the
pre-update table; the same update with an accepting callback succeeds. -/
theorem update_hw_failure_rolls_back_witness :
    update (fun _ tb => tb ==
        (⟨[(1824, ⟨⟨.v4 7, 32⟩, [(1, ⟨.drop, 1, []⟩)]⟩)], []⟩ : RouteTable))
        0 1 1 [⟨⟨.v4 9, 32⟩, .nexthops, [⟨.v4 2, none⟩]⟩] [⟨.v4 7, 32⟩] false
        [(0, ⟨[(1824, ⟨⟨.v4 7, 32⟩, [(1, ⟨.drop, 1, []⟩)]⟩)], []⟩)] =
      ⟨[(0, ⟨[(1824, ⟨⟨.v4 7, 32⟩, [(1, ⟨.drop, 1, []⟩)]⟩)], []⟩)],
        .hwUpdateError,
        [(0, updateTargetTable 1 1 [⟨⟨.v4 9, 32⟩, .nexthops, [⟨.v4 2, none⟩]⟩]
            [⟨.v4 7, 32⟩] false
            ⟨[(1824, ⟨⟨.v4 7, 32⟩, [(1, ⟨.drop, 1, []⟩)]⟩)], []⟩),
          (0, ⟨[(1824, ⟨⟨.v4 7, 32⟩, [(1, ⟨.drop, 1, []⟩)]⟩)], []⟩)]⟩ ∧
      update (fun _ _ => true) 0 1 1
          [⟨⟨.v4 9, 32⟩, .nexthops, [⟨.v4 2, none⟩]⟩] [⟨.v4 7, 32⟩] false
          [(0, ⟨[(1824, ⟨⟨.v4 7, 32⟩, [(1, ⟨.drop, 1, []⟩)]⟩)], []⟩)] =
        ⟨ainsert 0
            (updateTargetTable 1 1 [⟨⟨.v4 9, 32⟩, .nexthops, [⟨.v4 2, none⟩]⟩]
              [⟨.v4 7, 32⟩] false
              ⟨[(1824, ⟨⟨.v4 7, 32⟩, [(1, ⟨.drop, 1, []⟩)]⟩)], []⟩)
            [(0, ⟨[(1824, ⟨⟨.v4 7, 32⟩, [(1, ⟨.drop, 1, []⟩)]⟩)], []⟩)],
          .ok (updateTargetStats 1 1 [⟨⟨.v4 9, 32⟩, .nexthops, [⟨.v4 2, none⟩]⟩]
            [⟨.v4 7, 32⟩] false
            ⟨[(1824, ⟨⟨.v4 7, 32⟩, [(1, ⟨.drop, 1, []⟩)]⟩)], []⟩),
          [(0, updateTargetTable 1 1 [⟨⟨.v4 9, 32⟩, .nexthops, [⟨.v4 2, none⟩]⟩]
              [⟨.v4 7, 32⟩] false
              ⟨[(1824, ⟨⟨.v4 7, 32⟩, [(1, ⟨.drop, 1, []⟩)]⟩)], []⟩)]⟩ := by
  have h := update_hw_failure_rolls_back
    (fun _ tb => tb ==
      (⟨[(1824, ⟨⟨.v4 7, 32⟩, [(1, ⟨.drop, 1, []⟩)]⟩)], []⟩ : RouteTable))
    0 1 1 [⟨⟨.v4 9, 32⟩, .nexthops, [⟨.v4 2, none⟩]⟩] [⟨.v4 7, 32⟩] false
    [(0, ⟨[(1824, ⟨⟨.v4 7, 32⟩, [(1, ⟨.drop, 1, []⟩)]⟩)], []⟩)]
    ⟨[(1824, ⟨⟨.v4 7, 32⟩, [(1, ⟨.drop, 1, []⟩)]⟩)], []⟩
    (by decide) (by decide) (by decide) (by decide) (by decide) (by decide)
    (by decide) (by decide) (by decide) (by decide) (by decide) (by decide)
  exact ⟨h.1, h.2 (fun _ _ => true) (by decide)⟩

end FbossRib
